import Mathlib

/-!
Verification development for the sakdb repository (field records, three-way
merge, encode/decode, and the session/storage layer).

Modelling conventions:
* Python `float` timestamps are modelled as `Int`.  The code under
  verification only compares timestamps with `>` and copies them around, so
  any linearly ordered type is a faithful model of that usage.
* Python `str` is modelled as Lean `String`; all algorithmic work happens on
  the underlying `List Char` (code points), matching Python's code-point
  string semantics.
* Python `dict` objects are modelled as association lists, with insertion
  replacing an existing binding.
* Exceptions are modelled with `Except String`, the message being the one
  raised by the source.
-/

/-- Boolean lexicographic comparison of code-point lists; this is how Python
compares strings (`sorted` uses it for the merge key ordering). -/
def lexLe : List Char → List Char → Bool
  | [], _ => true
  | _ :: _, [] => false
  | a :: as, b :: bs =>
    if a.toNat < b.toNat then true
    else if b.toNat < a.toNat then false
    else lexLe as bs

/-- Python string `<=` on the code-point sequences. -/
def keyLe (a b : String) : Prop := lexLe a.data b.data = true

instance : DecidableRel keyLe := fun a b =>
  inferInstanceAs (Decidable (lexLe a.data b.data = true))

/-- sakdb_fields.PAYLOAD_SEPARATOR, the single character. -/
def PAYLOAD_SEPARATOR : Char := '&'

/-- sakdb_fields.SakDbField: one field of a record.  `ts` is the (modelled)
timestamp, `key` identifies the field, `crc` is the stored content hash and
`payload` the opaque string payload.  The Python constructor's defaulting of
`ts`/`key`/`crc` (clock, uuid, md5) is nondeterministic input creation and is
not part of the verified algorithms, which receive fields fully formed. -/
structure SakDbField where
  ts : Int
  key : String
  crc : String
  payload : String
deriving DecidableEq, Repr

/-- sakdb_fields.SakDbFields: an ordered field record. -/
structure SakDbFields where
  fields : List SakDbField
deriving DecidableEq, Repr

/-- Loop body of SakDbFields.get_by_key: first field with the given key. -/
def getByKeyList : List SakDbField → String → Option SakDbField
  | [], _ => none
  | f :: fs, k => if f.key = k then some f else getByKeyList fs k

/-- sakdb_fields.SakDbFields.get_by_key. -/
def SakDbFields.get_by_key (fr : SakDbFields) (key : String) : Option SakDbField :=
  getByKeyList fr.fields key

/-- sakdb_fields.SakDbFields.get_keys. -/
def SakDbFields.get_keys (fr : SakDbFields) : List String :=
  fr.fields.map SakDbField.key

/-- Python `sorted(set(a) | set(b))`: the distinct keys of both sides, in
ascending code-point order.  `dedup` + a sort is extensionally the same set;
sortedness and distinctness make the resulting list unique. -/
def sorted_keys (a b : List String) : List String :=
  List.insertionSort keyLe ((a ++ b).dedup)

/-- Per-key choice of the merge loop in sakdb_fields.merge: when both sides
hold the key the strictly newer `ts` wins (`>` picks ours only on strict
greater, so ties go to theirs); a key on one side only uses that side. -/
def mergePick (ours theirs : SakDbFields) (key : String) : Option SakDbField :=
  match ours.get_by_key key, theirs.get_by_key key with
  | some o, some t => some (if o.ts > t.ts then o else t)
  | some o, none => some o
  | none, some t => some t
  | none, none => none

/-- sakdb_fields.merge.  The four `if` blocks of the source are mutually
exclusive and keyed purely on which of the three arguments are `None`
(an empty `SakDbFields` object is still truthy in Python); combinations not
covered by any block fall through with `new_fields = []`. -/
def merge : Option SakDbFields → Option SakDbFields → Option SakDbFields → SakDbFields
  | some _, some o, some t =>
    ⟨(sorted_keys o.get_keys t.get_keys).filterMap (mergePick o t)⟩
  | none, some o, some t =>
    ⟨(sorted_keys o.get_keys t.get_keys).filterMap (mergePick o t)⟩
  | none, some o, none => ⟨o.fields⟩
  | none, none, some t => ⟨t.fields⟩
  | _, _, _ => ⟨[]⟩

/-- Association-list lookup, modelling Python dict access by string key. -/
def lookupStr {α : Type} : List (String × α) → String → Option α
  | [], _ => none
  | (k0, v) :: rest, k => if k0 = k then some v else lookupStr rest k

/-- Association-list insertion, modelling Python dict assignment: an existing
binding is replaced in place, a new key is appended (insertion order). -/
def dictInsert {α : Type} : List (String × α) → String → α → List (String × α)
  | [], k, v => [(k, v)]
  | (k0, v0) :: rest, k, v =>
    if k0 = k then (k0, v) :: rest else (k0, v0) :: dictInsert rest k v

/-- One step of the timestamp-sanitization loop shared by
SakDbSessionChanges.write and SakDbNamespace.session_apply_sakdb: the first
field of the list whose key equals the previous field's key gets the previous
field's ts copied over it when the crc matches (the loop body does
`new_field = value.get_by_key(prev_field.key)` and mutates that field). -/
def patchFirst : List SakDbField → SakDbField → List SakDbField
  | [], _ => []
  | f :: fs, pf =>
    if f.key = pf.key then
      (if f.crc = pf.crc then { f with ts := pf.ts } else f) :: fs
    else f :: patchFirst fs pf

/-- The whole sanitization loop (`for prev_field in previous_value.fields`). -/
def sanitize_ts (value prev : SakDbFields) : SakDbFields :=
  ⟨prev.fields.foldl patchFirst value.fields⟩

/-- sakdb_storage.SakDbSessionChanges.write: sanitize timestamps against the
staged record at the path (if any) and re-stage `merge(None, value, staged)`.
The changes dict is keyed by `str(path)`. -/
def SakDbSessionChanges_write (changes : List (String × SakDbFields))
    (path : String) (value : SakDbFields) : List (String × SakDbFields) :=
  let previous_value := lookupStr changes path
  let value2 := match previous_value with
    | none => value
    | some prev => sanitize_ts value prev
  dictInsert changes path (merge none (some value2) previous_value)

/-! Encoding and decoding (sakdb_fields.sakdb_dumps / sakdb_loads).  The
source serializes each field as a compact JSON header, the separator `&` and
a compact JSON string payload, one line per field.  `json.dumps` with
`ensure_ascii` (the default) and `separators=(",", ":")` is modelled below:
integers print in decimal (timestamps are modelled as integers), and strings
escape the backslash, the double quote, the control characters and every
non-ASCII character, the latter as `\uXXXX` (with surrogate pairs above
U+FFFF).  `json.loads` is modelled by a parser for the compact fragment the
encoder emits (objects of string/number members, strings, integers); lone
surrogates, which Lean `Char` cannot represent, are rejected. -/

/-- Lowercase hex digit, as Python emits in its json escapes. -/
def hexDigit (n : Nat) : Char :=
  Char.ofNat (if n < 10 then 48 + n else 87 + n)

/-- Four-digit hex rendering of a code unit for a json escape. -/
def toHex4 (n : Nat) : List Char :=
  [hexDigit (n / 4096 % 16), hexDigit (n / 256 % 16), hexDigit (n / 16 % 16),
    hexDigit (n % 16)]

/-- Escape of a single character in Python json.dumps with ensure_ascii:
backslash, quote and the named control characters get two-character escapes,
every other character outside printable ASCII gets a `\uXXXX` escape (a
surrogate pair above U+FFFF), printable ASCII stands for itself. -/
def escapeChar (c : Char) : List Char :=
  if c = '\\' then ['\\', '\\']
  else if c = '\"' then ['\\', '\"']
  else if c.toNat = 8 then ['\\', 'b']
  else if c.toNat = 9 then ['\\', 't']
  else if c.toNat = 10 then ['\\', 'n']
  else if c.toNat = 12 then ['\\', 'f']
  else if c.toNat = 13 then ['\\', 'r']
  else if c.toNat < 32 ∨ 126 < c.toNat then
    if c.toNat < 65536 then '\\' :: 'u' :: toHex4 c.toNat
    else ('\\' :: 'u' :: toHex4 (55296 + (c.toNat - 65536) / 1024))
      ++ ('\\' :: 'u' :: toHex4 (56320 + (c.toNat - 65536) % 1024))
  else [c]

/-- json.dumps of a string value (compact): quote, escaped chars, quote. -/
def encodeJsonString (s : String) : List Char :=
  '\"' :: (s.data.map escapeChar).flatten ++ ['\"']

/-- Decimal digits of a natural number (fuel-structured; fuel `n + 1` always
suffices since the argument shrinks by a factor of ten each step). -/
def natToDigitsAux : Nat → Nat → List Char
  | 0, _ => []
  | fuel + 1, n =>
    if n < 10 then [Char.ofNat (48 + n)]
    else natToDigitsAux fuel (n / 10) ++ [Char.ofNat (48 + n % 10)]

/-- Decimal rendering of a natural number. -/
def natToDecimal (n : Nat) : List Char := natToDigitsAux (n + 1) n

/-- json.dumps of an integer. -/
def intToDecimal (i : Int) : List Char :=
  if i < 0 then '-' :: natToDecimal i.natAbs else natToDecimal i.natAbs

/-- Compact json.dumps of the header dict, with the source's key order
`t, k, c` (Python dicts preserve insertion order). -/
def encodeHeader (f : SakDbField) : List Char :=
  '\x7b' :: '\"' :: 't' :: '\"' :: ':' :: (intToDecimal f.ts
    ++ ',' :: '\"' :: 'k' :: '\"' :: ':' :: (encodeJsonString f.key
    ++ ',' :: '\"' :: 'c' :: '\"' :: ':' :: (encodeJsonString f.crc ++ ['\x7d'])))

/-- Loop body of sakdb_dumps: either raise on a `&` in the header or produce
the line `header & payload`. -/
def sakdb_dumps_lines : List SakDbField → Except String (List (List Char))
  | [] => Except.ok []
  | f :: fs =>
    let header := encodeHeader f
    if PAYLOAD_SEPARATOR ∈ header then
      Except.error "It is not allowed to have the \"&\" in the header"
    else
      match sakdb_dumps_lines fs with
      | Except.error e => Except.error e
      | Except.ok rest =>
        Except.ok ((header ++ PAYLOAD_SEPARATOR :: encodeJsonString f.payload) :: rest)

/-- Python `"\n".join`. -/
def joinNl : List (List Char) → List Char
  | [] => []
  | [l] => l
  | l :: ls => l ++ '\n' :: joinNl ls

/-- sakdb_fields.sakdb_dumps: newline-joined lines plus a final newline. -/
def sakdb_dumps (data : SakDbFields) : Except String String :=
  match sakdb_dumps_lines data.fields with
  | Except.error e => Except.error e
  | Except.ok ls => Except.ok (String.mk (joinNl ls ++ ['\n']))

/-- Split on every occurrence of a character (like Python str.split). -/
def splitOnChar (sep : Char) : List Char → List (List Char)
  | [] => [[]]
  | c :: rest =>
    if c = sep then [] :: splitOnChar sep rest
    else
      match splitOnChar sep rest with
      | [] => [[c]]
      | l :: ls => (c :: l) :: ls

/-- Python str.splitlines for `\n`-separated text: like split on `\n` but a
trailing line terminator does not produce a final empty line.  (Python also
breaks on other line boundary characters; encoded blobs contain none.) -/
def splitlines (xs : List Char) : List (List Char) :=
  let parts := splitOnChar '\n' xs
  match parts.getLast? with
  | some [] => parts.dropLast
  | _ => parts

/-- ASCII whitespace stripped by Python str.strip (the unicode spaces it also
strips never occur in encoded lines). -/
def isPySpace (c : Char) : Bool :=
  c = ' ' || c = '\t' || c = '\n' || c = '\x0b' || c = '\x0c' || c = '\r'

/-- Python str.strip(). -/
def pyStrip (xs : List Char) : List Char :=
  ((xs.dropWhile isPySpace).reverse.dropWhile isPySpace).reverse

/-- Python line.split(sep, maxsplit=1) when unpacked into two names: the text
before the first separator and everything after it; `none` models the
ValueError when the separator does not occur. -/
def splitOnce (sep : Char) : List Char → Option (List Char × List Char)
  | [] => none
  | c :: rest =>
    if c = sep then some ([], rest)
    else (splitOnce sep rest).map (fun p => (c :: p.1, p.2))

def isDigitChar (c : Char) : Bool := 48 ≤ c.toNat && c.toNat ≤ 57

/-- Consume leading decimal digits, accumulating their value. -/
def parseDigitsAux : List Char → Nat → Nat × List Char
  | [], acc => (acc, [])
  | c :: rest, acc =>
    if isDigitChar c then parseDigitsAux rest (acc * 10 + (c.toNat - 48))
    else (acc, c :: rest)

/-- Parse a nonempty run of decimal digits. -/
def parseNat (xs : List Char) : Option (Nat × List Char) :=
  match xs with
  | c :: _ => if isDigitChar c then some (parseDigitsAux xs 0) else none
  | [] => none

/-- Parse a json integer (optional minus sign and digits; the encoder never
emits fractions or exponents because timestamps are modelled as integers). -/
def parseJsonNumber (xs : List Char) : Option (Int × List Char) :=
  match xs with
  | [] => none
  | c :: rest =>
    if c = '-' then (parseNat rest).map (fun p => (-(p.1 : Int), p.2))
    else (parseNat (c :: rest)).map (fun p => ((p.1 : Int), p.2))

/-- Whether a character list starts with a decimal digit (the condition under
which the digit parser would keep consuming). -/
def headIsDigit : List Char → Bool
  | [] => false
  | c :: _ => isDigitChar c

/-- Value of one hex digit (json accepts either case). -/
def hexVal (c : Char) : Option Nat :=
  if 48 ≤ c.toNat && c.toNat ≤ 57 then some (c.toNat - 48)
  else if 97 ≤ c.toNat && c.toNat ≤ 102 then some (c.toNat - 87)
  else if 65 ≤ c.toNat && c.toNat ≤ 70 then some (c.toNat - 55)
  else none

/-- One json string escape after the backslash: the named escapes, `\uXXXX`
and surrogate pairs.  A lone surrogate escape, which Python would keep but
Lean `Char` cannot hold, fails the parse. -/
def parseLowSurrogate : List Char → Option (Nat × List Char)
  | '\\' :: 'u' :: a :: b :: c :: d :: rs =>
    match hexVal a, hexVal b, hexVal c, hexVal d with
    | some ve, some vf, some vg, some vh =>
      let m := ((ve * 16 + vf) * 16 + vg) * 16 + vh
      if 56320 ≤ m ∧ m ≤ 57343 then some (m, rs) else none
    | _, _, _, _ => none
  | _ => none

/-- Interpretation of one `\uXXXX` code unit: a high surrogate looks for a
low surrogate escape to combine with, a lone low surrogate is invalid, and
anything else is the scalar value itself. -/
def escape_combine (n : Nat) (rs : List Char) : Option (Char × List Char) :=
  if 55296 ≤ n ∧ n ≤ 56319 then
    match parseLowSurrogate rs with
    | some (m, rs2) =>
      some (Char.ofNat (65536 + (n - 55296) * 1024 + (m - 56320)), rs2)
    | none => none
  else if 56320 ≤ n ∧ n ≤ 57343 then none
  else some (Char.ofNat n, rs)

def parseEscape : List Char → Option (Char × List Char)
  | '\"' :: rs => some ('\"', rs)
  | '\\' :: rs => some ('\\', rs)
  | '/' :: rs => some ('/', rs)
  | 'b' :: rs => some ('\x08', rs)
  | 'f' :: rs => some ('\x0c', rs)
  | 'n' :: rs => some ('\n', rs)
  | 'r' :: rs => some ('\r', rs)
  | 't' :: rs => some ('\t', rs)
  | 'u' :: a :: b :: c :: d :: rs =>
    match hexVal a, hexVal b, hexVal c, hexVal d with
    | some va, some vb, some vc, some vd =>
      escape_combine (((va * 16 + vb) * 16 + vc) * 16 + vd) rs
    | _, _, _, _ => none
  | _ => none

/-- Body of a json string after the opening quote: content up to the closing
quote.  Control characters are invalid raw (json strict mode).  The fuel
argument (one unit per consumed character is ample) makes the recursion
structural. -/
def parseJsonStringBody : Nat → List Char → Option (List Char × List Char)
  | 0, _ => none
  | _ + 1, [] => none
  | fuel + 1, c :: rest =>
    if c = '\"' then some ([], rest)
    else if c = '\\' then
      match parseEscape rest with
      | none => none
      | some (e, rs) => (parseJsonStringBody fuel rs).map (fun p => (e :: p.1, p.2))
    else if c.toNat < 32 then none
    else (parseJsonStringBody fuel rest).map (fun p => (c :: p.1, p.2))

/-- Parse a json string value. -/
def parseJsonString (xs : List Char) : Option (String × List Char) :=
  match xs with
  | '\"' :: rest =>
    (parseJsonStringBody (rest.length + 1) rest).map (fun p => (String.mk p.1, p.2))
  | _ => none

/-- Json scalar values occurring in sakdb blobs. -/
inductive JsonVal where
  | num (i : Int)
  | str (s : String)
deriving DecidableEq, Repr

/-- Parse a json value of the fragment the encoder emits. -/
def parseJsonValue (xs : List Char) : Option (JsonVal × List Char) :=
  match xs with
  | [] => none
  | c :: rest =>
    if c = '\"' then (parseJsonString (c :: rest)).map (fun p => (JsonVal.str p.1, p.2))
    else (parseJsonNumber (c :: rest)).map (fun p => (JsonVal.num p.1, p.2))

/-- Comma-separated `"key": value` members up to the closing brace (fuel is
the remaining input length, which bounds the number of members). -/
def parsePairsAux : Nat → List Char → Option (List (String × JsonVal) × List Char)
  | 0, _ => none
  | fuel + 1, xs =>
    match parseJsonString xs with
    | none => none
    | some (k, rest) =>
      match rest with
      | [] => none
      | c :: rest2 =>
        if c = ':' then
          match parseJsonValue rest2 with
          | none => none
          | some (v, rest3) =>
            match rest3 with
            | [] => none
            | c2 :: rest4 =>
              if c2 = ',' then
                (parsePairsAux fuel rest4).map (fun p => ((k, v) :: p.1, p.2))
              else if c2 = '\x7d' then some ([(k, v)], rest4)
              else none
        else none

/-- Parse a compact json object into its member list. -/
def parseJsonObject (xs : List Char) : Option (List (String × JsonVal) × List Char) :=
  match xs with
  | [] => none
  | c :: rest =>
    if c = '\x7b' then
      match rest with
      | [] => none
      | c2 :: rest2 =>
        if c2 = '\x7d' then some ([], rest2)
        else parsePairsAux rest.length rest
    else none

/-- Python dict built from json members: a duplicated key keeps the last
binding. -/
def jsonLookup (pairs : List (String × JsonVal)) (k : String) : Option JsonVal :=
  lookupStr pairs.reverse k

/-- One nonblank line of sakdb_loads: split on the first `&`, json-parse the
header (which must consume the whole prefix and carry numeric `t` and string
`k`/`c` members) and the payload (a json string). -/
def decodeLine (line : List Char) : Except String SakDbField :=
  match splitOnce PAYLOAD_SEPARATOR line with
  | none => Except.error "not enough values to unpack"
  | some (header, payload) =>
    match parseJsonObject header with
    | none => Except.error "header is not valid json"
    | some (pairs, rest) =>
      if rest ≠ [] then Except.error "header is not valid json"
      else
        match jsonLookup pairs "t", jsonLookup pairs "k", jsonLookup pairs "c" with
        | some (JsonVal.num t), some (JsonVal.str k), some (JsonVal.str c) =>
          match parseJsonValue payload with
          | some (JsonVal.str p, rest2) =>
            if rest2 = [] then Except.ok ⟨t, k, c, p⟩
            else Except.error "payload is not valid json"
          | _ => Except.error "payload is not a json string"
        | _, _, _ => Except.error "missing header member"
  /- Python would raise KeyError / json.JSONDecodeError here; any raise is an
  error of the whole load. -/

/-- Line loop of sakdb_loads: strip each line, skip blanks, decode the rest
in order. -/
def sakdb_loads_fields : List (List Char) → Except String (List SakDbField)
  | [] => Except.ok []
  | line :: rest =>
    let l := pyStrip line
    if l = [] then sakdb_loads_fields rest
    else
      match decodeLine l with
      | Except.error e => Except.error e
      | Except.ok f =>
        match sakdb_loads_fields rest with
        | Except.error e => Except.error e
        | Except.ok fs => Except.ok (f :: fs)

/-- sakdb_fields.sakdb_loads: `ok none` when no nonblank line was seen (the
source returns None), `ok (some fr)` otherwise; malformed input raises. -/
def sakdb_loads (s : String) : Except String (Option SakDbFields) :=
  match sakdb_loads_fields (splitlines s.data) with
  | Except.error e => Except.error e
  | Except.ok [] => Except.ok none
  | Except.ok fs => Except.ok (some ⟨fs⟩)

/-! Storage model (sakdb_storage.py).  The git backend (pygit2) is modelled
content-addressed: a blob is its string content (two blobs share an id iff
the strings are equal), a tree is an association list from path to blob
content whose id is its entry list sorted by path (pygit2 sorts tree entries
on write, so two written trees share an id iff the sorted lists are equal),
a commit is a tree with parent commit ids and a message, and a repository is
the list of commits (a commit id is its index) together with the branch map
from name to commit id. -/

/-- Association-list removal, modelling deleting a key from a dict / deleting
a branch by name. -/
def dictRemove {α : Type} : List (String × α) → String → List (String × α)
  | [], _ => []
  | (k0, v) :: rest, k => if k0 = k then rest else (k0, v) :: dictRemove rest k

/-- A git tree: path to blob content, in insertion order. -/
abbrev GitTree : Type := List (String × String)

/-- Order on tree entries by path, used by the tree writer. -/
def entryLe (p q : String × String) : Prop := keyLe p.1 q.1

instance : DecidableRel entryLe := fun p q =>
  inferInstanceAs (Decidable (keyLe p.1 q.1))

/-- pygit2 Index.write_tree: the stored tree object has its entries sorted by
path, which is what makes tree ids insensitive to insertion order. -/
def write_tree (idx : GitTree) : GitTree :=
  List.insertionSort entryLe idx

/-- A git commit: its tree, parent commit ids and message. -/
structure GitCommit where
  tree : GitTree
  parents : List Nat
  message : String
deriving DecidableEq

/-- A git repository: the commit store (a commit's id is its index, so every
parent id is smaller than its child's) and the local branches. -/
structure GitRepo where
  commits : List GitCommit
  branches : List (String × Nat)
deriving DecidableEq

/-- Commit lookup by id. -/
def GitRepo.commitAt (r : GitRepo) (cid : Nat) : Option GitCommit :=
  r.commits.get? cid

/-- pygit2 create_commit on a branch ref: append the commit and point the
branch at it. -/
def create_commit (r : GitRepo) (ref : String) (tree : GitTree)
    (parents : List Nat) (msg : String) : GitRepo :=
  { commits := r.commits ++ [⟨tree, parents, msg⟩],
    branches := dictInsert r.branches ref r.commits.length }

/-- Commit ids reachable from `c` (including `c`), by walking parents with
fuel; `r.commits.length` steps suffice since parent ids strictly decrease. -/
def gitAncestorsAux (r : GitRepo) : Nat → Nat → List Nat
  | 0, c => [c]
  | fuel + 1, c =>
    c :: ((r.commitAt c).map
      (fun cm => (cm.parents.map (gitAncestorsAux r fuel)).flatten)).getD []

/-- All ancestors of a commit (itself included). -/
def gitAncestors (r : GitRepo) (c : Nat) : List Nat :=
  gitAncestorsAux r r.commits.length c

/-- pygit2 merge_analysis is UP_TO_DATE exactly when the incoming head is
already reachable from our branch. -/
def isAncestor (r : GitRepo) (a b : Nat) : Bool :=
  (gitAncestors r b).contains a

/-- The merge base of two commits: among the common ancestors, the one with
the largest id is the best (most recent) one, since ids grow over time. -/
def merge_base (r : GitRepo) (a b : Nat) : Option Nat :=
  ((gitAncestors r b).filter (fun x => (gitAncestors r a).contains x)).max?

/-- Three-way tree merge of pygit2 merge_commits: per path, identical sides
agree; a side equal to the base yields the other side; otherwise the path is
a conflict (base, ours, theirs contents, any of which may be absent). -/
def merge_trees (base ours theirs : GitTree) :
    GitTree × List (String × Option String × Option String × Option String) :=
  let paths := (((base : List (String × String)).map Prod.fst
    ++ (ours : List (String × String)).map Prod.fst
    ++ (theirs : List (String × String)).map Prod.fst)).dedup
  paths.foldr (fun p acc =>
    let b := lookupStr base p
    let o := lookupStr ours p
    let t := lookupStr theirs p
    if o = t then
      match o with
      | some v => ((p, v) :: acc.1, acc.2)
      | none => acc
    else if b = o then
      match t with
      | some v => ((p, v) :: acc.1, acc.2)
      | none => acc
    else if b = t then
      match o with
      | some v => ((p, v) :: acc.1, acc.2)
      | none => acc
    else (acc.1, (p, b, o, t) :: acc.2)) (([] : List (String × String)), [])

/-- Loading one side of a conflict: an absent entry is None, a present one
goes through sakdb_loads (whose parse errors propagate). -/
def loadBlobOpt : Option String → Except String (Option SakDbFields)
  | none => Except.ok none
  | some s => sakdb_loads s

/-- Conflict loop of SakDbNamespaceGit.do_merge: each conflicting path is
re-merged with the field-level merge and the result replaces the entry in
the merged index. -/
def resolve_conflicts :
    List (String × Option String × Option String × Option String) → GitTree →
    Except String GitTree
  | [], idx => Except.ok idx
  | (p, b, o, t) :: rest, idx =>
    match loadBlobOpt b, loadBlobOpt o, loadBlobOpt t with
    | Except.ok fb, Except.ok fo, Except.ok ft =>
      (match sakdb_dumps (merge fb fo ft) with
       | Except.error e => Except.error e
       | Except.ok str => resolve_conflicts rest (dictInsert idx p str))
    | Except.error e, _, _ => Except.error e
    | _, Except.error e, _ => Except.error e
    | _, _, Except.error e => Except.error e

/-- SakDbNamespaceGit.do_merge: nothing to do when the incoming branch is
already merged; otherwise a three-way merge from the merge base, with the
conflict loop above, committed onto the synced branch with both parents. -/
def GitRepo.do_merge (r : GitRepo) (synced theirs_name : String) :
    Except String GitRepo :=
  match lookupStr r.branches theirs_name with
  | none => Except.error "branch not found"
  | some theirs_tip =>
  match lookupStr r.branches synced with
  | none => Except.error "branch not found"
  | some synced_tip =>
  if isAncestor r theirs_tip synced_tip then Except.ok r
  else
    match merge_base r synced_tip theirs_tip with
    | none => Except.error "no merge base"
    | some mb =>
    match r.commitAt mb, r.commitAt synced_tip, r.commitAt theirs_tip with
    | some bc, some oc, some tc =>
      (match merge_trees bc.tree oc.tree tc.tree with
       | (tr, conflicts) =>
         match resolve_conflicts conflicts tr with
         | Except.error e => Except.error e
         | Except.ok idx2 =>
           Except.ok (create_commit r synced (write_tree idx2)
             [synced_tip, theirs_tip] ("Merge " ++ theirs_name)))
    | _, _, _ => Except.error "commit not found"

/-- SakDbNamespaceGit: the git-backed namespace.  The session index is a
plain tree (association list) and the session branch a branch name. -/
structure SakDbNamespaceGit where
  repo : GitRepo
  namespace_branch : String
  current_session_index : Option GitTree
  current_session_branch : Option String
deriving DecidableEq

/-- Tree at the tip of a branch, if the branch and its commit exist. -/
def branchTree (ns : SakDbNamespaceGit) (branch : String) : Option GitTree :=
  match lookupStr ns.repo.branches branch with
  | none => none
  | some cid => (ns.repo.commitAt cid).map GitCommit.tree

/-- SakDbNamespaceGit._read_blob: the blob at a path on a branch.  The source
walks the path components down the nested trees; the flat tree model looks
the whole path up at once. -/
def SakDbNamespaceGit._read_blob (ns : SakDbNamespaceGit) (branch path : String) :
    Option String :=
  match branchTree ns branch with
  | none => none
  | some t => lookupStr t path

/-- SakDbNamespaceGit._read: an explicit branch wins, else the session branch
if a session is open, else the namespace branch. -/
def SakDbNamespaceGit._read (ns : SakDbNamespaceGit) (path : String)
    (branch : Option String) : Option String :=
  match branch with
  | some b => ns._read_blob b path
  | none =>
    match ns.current_session_branch with
    | some sb => ns._read_blob sb path
    | none => ns._read_blob ns.namespace_branch path

/-- SakDbNamespaceGit._write: identical content is skipped (blob ids are
content hashes, so the previous blob equals the new one iff the strings are
equal); otherwise the session index must exist and gains the entry. -/
def SakDbNamespaceGit._write (ns : SakDbNamespaceGit) (path value : String) :
    Except String SakDbNamespaceGit :=
  let previous := match ns.current_session_branch with
    | some sb => ns._read_blob sb path
    | none => ns._read_blob ns.namespace_branch path
  if previous = some value then Except.ok ns
  else
    match ns.current_session_index with
    | none => Except.error "There should be a index setup"
    | some idx =>
      Except.ok { ns with current_session_index := some (dictInsert idx path value) }

/-- SakDbNamespaceGit.start_session: refuses when a session is already open;
otherwise creates the session branch at the namespace tip (with a fresh
suffix when the name is taken — the source appends a uuid fragment, modelled
by a deterministic counter) and loads the namespace tree into the index. -/
def SakDbNamespaceGit.start_session (ns : SakDbNamespaceGit) (name : String) :
    Except String SakDbNamespaceGit :=
  match ns.current_session_index with
  | some _ => Except.error "Index was supposed to be None"
  | none =>
  match ns.current_session_branch with
  | some _ => Except.error "Session was supposed to be None"
  | none =>
    let sb0 := "session/" ++ name
    let session_branch :=
      if (lookupStr ns.repo.branches sb0).isSome then
        sb0 ++ "." ++ String.mk (natToDecimal ns.repo.commits.length)
      else sb0
    match lookupStr ns.repo.branches ns.namespace_branch with
    | none => Except.error "branch not found"
    | some tip =>
    match ns.repo.commitAt tip with
    | none => Except.error "commit not found"
    | some cm =>
      Except.ok { ns with
        repo := { ns.repo with
          branches := dictInsert ns.repo.branches session_branch tip },
        current_session_branch := some session_branch,
        current_session_index := some cm.tree }

/-- SakDbNamespaceGit.commit: write the index as a tree; if its id differs
from the session tip's tree id, commit it onto the session branch. -/
def SakDbNamespaceGit.commit (ns : SakDbNamespaceGit) (msg : String) :
    Except String SakDbNamespaceGit :=
  match ns.current_session_index with
  | none => Except.error "Cannot commit to the current index, it is None. Make sure you called start session"
  | some idx =>
  match ns.current_session_branch with
  | none => Except.error "Something went wrong. The session branch is not set"
  | some sb =>
    let tid := write_tree idx
    match lookupStr ns.repo.branches sb with
    | none => Except.error "branch not found"
    | some sref =>
    match ns.repo.commitAt sref with
    | none => Except.error "commit not found"
    | some c =>
      if tid = c.tree then Except.ok ns
      else Except.ok { ns with repo := create_commit ns.repo sb tid [sref] msg }

/-- SakDbNamespaceGit.rollback: point the session branch back at the
namespace tip and reload the index from the namespace tree. -/
def SakDbNamespaceGit.rollback (ns : SakDbNamespaceGit) :
    Except String SakDbNamespaceGit :=
  match ns.current_session_branch with
  | none => Except.error "Something went wrong. The session branch is not set"
  | some sb =>
    match lookupStr ns.repo.branches ns.namespace_branch with
    | none => Except.error "branch not found"
    | some tip =>
    match ns.repo.commitAt tip with
    | none => Except.error "commit not found"
    | some cm =>
      Except.ok { ns with
        repo := { ns.repo with
          branches := dictInsert ns.repo.branches sb tip },
        current_session_index := some cm.tree }

/-- SakDbNamespaceGit.close_session: a final commit, then a merge of the
session branch into the namespace branch, then the session branch is deleted
and the session state cleared. -/
def SakDbNamespaceGit.close_session (ns : SakDbNamespaceGit) (name msg : String) :
    Except String SakDbNamespaceGit :=
  match ns.current_session_branch with
  | none => Except.error "there is not active session"
  | some sb =>
  match ns.current_session_index with
  | none => Except.error "there is not active session"
  | some _ =>
    let _ := name
    match ns.commit msg with
    | Except.error e => Except.error e
    | Except.ok ns2 =>
      match GitRepo.do_merge ns2.repo ns.namespace_branch sb with
      | Except.error e => Except.error e
      | Except.ok r2 =>
        Except.ok { ns2 with
          repo := { r2 with branches := dictRemove r2.branches sb },
          current_session_index := none,
          current_session_branch := none }

/-- SakDbSession: the staged changes, keyed first by namespace name, then by
path. -/
structure SakDbSession where
  name : String
  default_msg : String
  session_changes : List (String × List (String × SakDbFields))
deriving DecidableEq

/-- SakDbGraph: the registered git namespaces and the current-session slot.
The Python objects hold mutual references; the model threads one graph value
through every operation. -/
structure SakDbGraph where
  namespaces : List (String × SakDbNamespaceGit)
  current_session : Option SakDbSession
deriving DecidableEq

/-- SakDbGraph.session: refuses while the slot is non-empty, otherwise
creates the session, installs it and returns it. -/
def SakDbGraph.session (g : SakDbGraph) (name msg : String) :
    Except String SakDbSession × SakDbGraph :=
  match g.current_session with
  | some _ => (Except.error "There is already a session for the current graph.", g)
  | none =>
    let s : SakDbSession := ⟨name, msg, []⟩
    (Except.ok s, { g with current_session := some s })

/-- Replace one namespace's backend state in the graph. -/
def updateNs (g : SakDbGraph) (nsName : String) (ns : SakDbNamespaceGit) :
    SakDbGraph :=
  { g with namespaces := dictInsert g.namespaces nsName ns }

/-- SakDbSession.read_from_session: the staged record at the path, if any. -/
def read_from_session (s : SakDbSession) (nsName path : String) :
    Option SakDbFields :=
  match lookupStr s.session_changes nsName with
  | none => none
  | some cs => lookupStr cs path

/-- SakDbNamespace.read_sakdb: the active session's staged value wins; only
when it is absent does the git branch get read and decoded. -/
def read_sakdb (g : SakDbGraph) (nsName path : String) (branch : Option String) :
    Except String (Option SakDbFields) :=
  let sessionVal := match g.current_session with
    | none => none
    | some s => read_from_session s nsName path
  match sessionVal with
  | some v => Except.ok (some v)
  | none =>
    match lookupStr g.namespaces nsName with
    | none => Except.error "namespace not registered"
    | some ns =>
      match ns._read path branch with
      | none => Except.ok none
      | some str => sakdb_loads str

/-- SakDbSession.write_to_session: the first write to a namespace starts the
backend session and creates the (empty) staged-changes entry; every write
then stages through SakDbSessionChanges.write. -/
def write_to_session (g : SakDbGraph) (s : SakDbSession)
    (nsName path : String) (data : SakDbFields) : Except String SakDbGraph :=
  match lookupStr s.session_changes nsName with
  | some cs =>
    Except.ok { g with current_session := some { s with
      session_changes := dictInsert s.session_changes nsName
        (SakDbSessionChanges_write cs path data) } }
  | none =>
    match lookupStr g.namespaces nsName with
    | none => Except.error "namespace not registered"
    | some ns =>
      match ns.start_session s.name with
      | Except.error e => Except.error e
      | Except.ok ns2 =>
        Except.ok
          { namespaces := dictInsert g.namespaces nsName ns2,
            current_session := some { s with
              session_changes := dictInsert s.session_changes nsName
                (SakDbSessionChanges_write [] path data) } }

/-- SakDbNamespace.write_sakdb: crashes without an active session, otherwise
writes through the session (never to the backend directly). -/
def write_sakdb (g : SakDbGraph) (nsName path : String) (value : SakDbFields) :
    Except String SakDbGraph :=
  match g.current_session with
  | none => Except.error "It is necessary to be in a session scope to perform a write"
  | some s => write_to_session g s nsName path value

/-- SakDbNamespace.session_apply_sakdb: sanitize the timestamps against the
previous value (read through the session), dump and write to the low level. -/
def session_apply_sakdb (g : SakDbGraph) (nsName path : String)
    (value : SakDbFields) : Except String SakDbGraph :=
  match read_sakdb g nsName path none with
  | Except.error e => Except.error e
  | Except.ok prev =>
    let value2 := match prev with
      | none => value
      | some p => sanitize_ts value p
    match sakdb_dumps value2 with
    | Except.error e => Except.error e
    | Except.ok str =>
      match lookupStr g.namespaces nsName with
      | none => Except.error "namespace not registered"
      | some ns =>
        match ns._write path str with
        | Except.error e => Except.error e
        | Except.ok ns2 => Except.ok (updateNs g nsName ns2)

/-- Generic fold of a graph-transforming step over a list, stopping at the
first error (a raised exception aborts the surrounding Python loop). -/
def foldE {α : Type} (f : SakDbGraph → α → Except String SakDbGraph) :
    SakDbGraph → List α → Except String SakDbGraph
  | g, [] => Except.ok g
  | g, a :: rest =>
    match f g a with
    | Except.error e => Except.error e
    | Except.ok g2 => foldE f g2 rest

/-- SakDbSessionChanges.dump_to_namespace: apply every staged path of the
namespace to the backend, then clear that namespace's staged changes. -/
def dump_to_namespace (g : SakDbGraph) (nsName : String) :
    Except String SakDbGraph :=
  match g.current_session with
  | none => Except.error "no current session"
  | some s =>
  match lookupStr s.session_changes nsName with
  | none => Except.ok g
  | some cs =>
    match foldE (fun g2 pv => session_apply_sakdb g2 nsName pv.1 pv.2) g cs with
    | Except.error e => Except.error e
    | Except.ok g2 =>
      match g2.current_session with
      | none => Except.error "no current session"
      | some s2 =>
        Except.ok { g2 with current_session := some { s2 with
          session_changes := dictInsert s2.session_changes nsName [] } }

/-- SakDbSessionChanges.close_session: close the backend session of the
namespace, then clear that namespace's staged changes. -/
def close_session_ns (g : SakDbGraph) (nsName name msg : String) :
    Except String SakDbGraph :=
  match lookupStr g.namespaces nsName with
  | none => Except.error "namespace not registered"
  | some ns =>
    match ns.close_session name msg with
    | Except.error e => Except.error e
    | Except.ok ns2 =>
      match g.current_session with
      | none => Except.error "no current session"
      | some s =>
        Except.ok
          { namespaces := dictInsert g.namespaces nsName ns2,
            current_session := some { s with
              session_changes := dictInsert s.session_changes nsName [] } }

/-- SakDbSession.__exit__ without an exception: dump every namespace's staged
changes, close every namespace's backend session, then empty the graph's
current-session slot. -/
def SakDbSession_exit_success (g : SakDbGraph) : Except String SakDbGraph :=
  match g.current_session with
  | none => Except.error "no current session"
  | some s =>
    match foldE (fun g2 n => dump_to_namespace g2 n) g
        (s.session_changes.map Prod.fst) with
    | Except.error e => Except.error e
    | Except.ok g2 =>
      match g2.current_session with
      | none => Except.error "no current session"
      | some s2 =>
        match foldE (fun g3 n => close_session_ns g3 n s2.name s2.default_msg) g2
            (s2.session_changes.map Prod.fst) with
        | Except.error e => Except.error e
        | Except.ok g3 => Except.ok { g3 with current_session := none }

/-- A whole `with graph.session(name, msg):` block whose body performs the
given writes.  A raised exception rolls the sessions back and re-raises; the
error alone stands for that outcome, successful runs match the source
exactly. -/
def runSession (g : SakDbGraph) (name msg : String)
    (writes : List (String × String × SakDbFields)) : Except String SakDbGraph :=
  match SakDbGraph.session g name msg with
  | (Except.error e, _) => Except.error e
  | (Except.ok _, g1) =>
    match foldE (fun g2 w => write_sakdb g2 w.1 w.2.1 w.2.2) g1 writes with
    | Except.error e => Except.error e
    | Except.ok g2 => SakDbSession_exit_success g2

/-! Version validation (sakdb_storage.VERSION, SakDbNamespace._validate_version
and the version gate of SakDbNamespaceGit.__init__). -/

/-- The current software version (sakdb_storage.VERSION). -/
def VERSION : String := "0.0.1"

/-- Numeric value of a run of decimal digits. -/
def digitsVal (ds : List Char) : Nat :=
  ds.foldl (fun a c => a * 10 + (c.toNat - 48)) 0

/-- Python int(str) on a version component: an optional sign followed by
digits; anything else raises ValueError. -/
def parsePyInt (xs : List Char) : Except String Int :=
  let core : List Char → Except String Int := fun ds =>
    if ds ≠ [] ∧ ds.all isDigitChar then Except.ok (Int.ofNat (digitsVal ds))
    else Except.error "invalid literal for int() with base 10"
  match xs with
  | '-' :: rest =>
    (match core rest with
     | Except.ok n => Except.ok (-n)
     | Except.error e => Except.error e)
  | '+' :: rest => core rest
  | _ => core xs

/-- Unpacking `a, _, _ = (int(v) for v in version.split("."))`: exactly three
dot-separated components, each parsed as an int; a wrong count or a
non-numeric component raises. -/
def version_components (version : String) : Except String (Int × Int × Int) :=
  match splitOnChar '.' version.data with
  | [a, b, c] =>
    (match parsePyInt a, parsePyInt b, parsePyInt c with
     | Except.ok va, Except.ok vb, Except.ok vc => Except.ok (va, vb, vc)
     | Except.error e, _, _ => Except.error e
     | _, Except.error e, _ => Except.error e
     | _, _, Except.error e => Except.error e)
  | _ => Except.error "not enough values to unpack"

/-- SakDbNamespace._validate_version: false exactly when the repository's
major component exceeds the software's major component. -/
def _validate_version (version : String) : Except String Bool :=
  match version_components version, version_components VERSION with
  | Except.ok rv, Except.ok sv => Except.ok (if sv.1 < rv.1 then false else true)
  | Except.error e, _ => Except.error e
  | _, Except.error e => Except.error e

/-- The metadata path used by SakDbNamespace.set_metadata / get_metadata:
`Path(self.name) / "metadata" / key`. -/
def metadata_path (nsName key : String) : String :=
  nsName ++ "/metadata/" ++ key

/-- The record built by SakDbNamespace.set_metadata for a string value: a
"_type" field recording Python's type name ("str") and the keyed field
holding the value's compact JSON; the two fields' ts and crc are the
SakDbField constructor's nondeterministic defaults (clock, payload md5),
taken here as inputs. -/
def set_metadata_fields (key value : String) (ts1 ts2 : Int)
    (crc1 crc2 : String) : SakDbFields :=
  ⟨[⟨ts1, "_type", crc1, "str"⟩,
    ⟨ts2, key, crc2, String.mk (encodeJsonString value)⟩]⟩

/-- SakDbNamespace.get_metadata for a string value: read the metadata path
through read_sakdb, take the keyed field and json.loads its payload
(restricted, like the header decoder, to the fragment the encoder emits). -/
def get_metadata (g : SakDbGraph) (nsName key : String) :
    Except String String :=
  match read_sakdb g nsName (metadata_path nsName key) none with
  | Except.error e => Except.error e
  | Except.ok none =>
    Except.error ("Could not load the entry " ++ key ++ " from metadata DB")
  | Except.ok (some data) =>
    (match data.get_by_key key with
     | none => Except.error ("No attribute " ++ key ++ ".")
     | some f =>
       (match parseJsonValue f.payload.data with
        | some (JsonVal.str s, []) => Except.ok s
        | _ => Except.error "json.loads failed"))

/-- Version gate of SakDbNamespaceGit.__init__ over the whole graph state,
abstracted over the outcome of the initial metadata read
(`get_metadata("version")`, whose failure yields `none`): a stored version
is validated (an invalid one raises with the source's message) and the
graph is left as it is; an absent one makes the constructor store the
current VERSION through an internal session —
`with self.graph.session(msg="Set version"): self.set_metadata("version",
VERSION)` — run here through the session machinery (graph.session defaults
the session name to "sakdbsession"); ts1/ts2/crc1/crc2 are the
nondeterministic field defaults of the set_metadata record. -/
def namespaceGit_version_gate (g : SakDbGraph) (nsName : String)
    (ts1 ts2 : Int) (crc1 crc2 : String) (version : Option String) :
    Except String SakDbGraph :=
  match version with
  | some v =>
    (match _validate_version v with
     | Except.error e => Except.error e
     | Except.ok true => Except.ok g
     | Except.ok false =>
       Except.error ("Repo version (" ++ v ++ ") not supported, please update the system."))
  | none =>
    runSession g "sakdbsession" "Set version"
      [(nsName, metadata_path nsName "version",
        set_metadata_fields "version" VERSION ts1 ts2 crc1 crc2)]

/-! Concrete sample data used by the storage witnesses. -/

/-- A one-field record whose encoding is header-safe. -/
def sampleFr : SakDbFields := ⟨[⟨5, "k", "c", "p"⟩]⟩

/-- A repository with one empty initial commit on master. -/
def sampleRepo : GitRepo := ⟨[⟨[], [], "Initial commit"⟩], [("master", 0)]⟩

/-- An idle git namespace over the sample repository. -/
def sampleNs : SakDbNamespaceGit := ⟨sampleRepo, "master", none, none⟩

/-- A graph with two registered namespaces and no active session. -/
def sampleGraph : SakDbGraph := ⟨[("a", sampleNs), ("b", sampleNs)], none⟩

/-- One write to namespace "a". -/
def sampleWrites : List (String × String × SakDbFields) := [("a", "p", sampleFr)]

/-- The graph after a successful session running the sample write. -/
def sampleRun : SakDbGraph :=
  (runSession sampleGraph "s" "m" sampleWrites).toOption.getD sampleGraph

/-- A fresh session with no staged changes. -/
def sampleSession0 : SakDbSession := ⟨"s", "m", []⟩

/-- The sample graph inside a fresh session. -/
def sampleGraphFresh : SakDbGraph :=
  ⟨[("a", sampleNs), ("b", sampleNs)], some sampleSession0⟩

/-- A session that has already staged the sample record. -/
def sampleStaged : SakDbSession := ⟨"s", "m", [("a", [("p", sampleFr)])]⟩

/-- The sample graph inside a session with staged changes. -/
def sampleGraphStaged : SakDbGraph :=
  ⟨[("a", sampleNs), ("b", sampleNs)], some sampleStaged⟩

/-- The graph after the internal version-writing session has staged the
set_metadata record on the sample graph (first write: backend session
started, record staged). -/
def verGateStaged (ts1 ts2 : Int) (crc1 crc2 : String) : SakDbGraph :=
  ⟨[("a", ⟨⟨[⟨[], [], "Initial commit"⟩],
        [("master", 0), ("session/sakdbsession", 0)]⟩,
      "master", some [], some "session/sakdbsession"⟩),
    ("b", sampleNs)],
   some ⟨"sakdbsession", "Set version",
     [("a", [(metadata_path "a" "version",
        set_metadata_fields "version" VERSION ts1 ts2 crc1 crc2)])]⟩⟩

/-- The staged graph after session_apply_sakdb wrote the encoded record
(the string S) into the session index. -/
def verGateApplied (ts1 ts2 : Int) (crc1 crc2 : String) (S : String) :
    SakDbGraph :=
  ⟨[("a", ⟨⟨[⟨[], [], "Initial commit"⟩],
        [("master", 0), ("session/sakdbsession", 0)]⟩,
      "master", some [(metadata_path "a" "version", S)],
      some "session/sakdbsession"⟩),
    ("b", sampleNs)],
   some ⟨"sakdbsession", "Set version",
     [("a", [(metadata_path "a" "version",
        set_metadata_fields "version" VERSION ts1 ts2 crc1 crc2)])]⟩⟩

/-- The graph after dump_to_namespace cleared the staged changes. -/
def verGateDumped (S : String) : SakDbGraph :=
  ⟨[("a", ⟨⟨[⟨[], [], "Initial commit"⟩],
        [("master", 0), ("session/sakdbsession", 0)]⟩,
      "master", some [(metadata_path "a" "version", S)],
      some "session/sakdbsession"⟩),
    ("b", sampleNs)],
   some ⟨"sakdbsession", "Set version", [("a", [])]⟩⟩

/-- The graph after the internal session closed: the session branch was
committed, merged into master and deleted, and the session slot emptied. -/
def verGateFinal (S : String) : SakDbGraph :=
  ⟨[("a", ⟨⟨[⟨[], [], "Initial commit"⟩,
        ⟨[(metadata_path "a" "version", S)], [0], "Set version"⟩,
        ⟨[(metadata_path "a" "version", S)], [0, 1],
          "Merge session/sakdbsession"⟩],
        [("master", 2)]⟩,
      "master", none, none⟩),
    ("b", sampleNs)],
   none⟩

/-! Basic lemmas about the list-level helpers. -/

theorem lexLe_total (a b : List Char) : lexLe a b = true ∨ lexLe b a = true := by
  induction a generalizing b with
  | nil => left; rfl
  | cons x xs ih =>
    cases b with
    | nil => right; rfl
    | cons y ys =>
      simp only [lexLe]
      rcases Nat.lt_trichotomy x.toNat y.toNat with h | h | h
      · left; simp [h]
      · have h1 : ¬ x.toNat < y.toNat := by omega
        have h2 : ¬ y.toNat < x.toNat := by omega
        simp only [h1, h2, if_false, ite_false]
        exact ih ys
      · right; simp [h]

theorem lexLe_trans {a b c : List Char} (h1 : lexLe a b = true)
    (h2 : lexLe b c = true) : lexLe a c = true := by
  induction a generalizing b c with
  | nil => rfl
  | cons x xs ih =>
    cases b with
    | nil => simp [lexLe] at h1
    | cons y ys =>
      cases c with
      | nil => simp [lexLe] at h2
      | cons z zs =>
        simp only [lexLe] at h1 h2 ⊢
        by_cases hxy : x.toNat < y.toNat
        · by_cases hyz : y.toNat < z.toNat
          · simp [show x.toNat < z.toNat by omega]
          · by_cases hzy : z.toNat < y.toNat
            · simp [hyz, hzy] at h2
            · simp [show x.toNat < z.toNat by omega]
        · by_cases hyx : y.toNat < x.toNat
          · simp [hxy, hyx] at h1
          · simp only [hxy, hyx, if_false, ite_false] at h1
            by_cases hyz : y.toNat < z.toNat
            · simp [show x.toNat < z.toNat by omega]
            · by_cases hzy : z.toNat < y.toNat
              · simp [hyz, hzy] at h2
              · simp only [hyz, hzy, if_false, ite_false] at h2
                have hxz : ¬ x.toNat < z.toNat := by omega
                have hzx : ¬ z.toNat < x.toNat := by omega
                simp only [hxz, hzx, if_false, ite_false]
                exact ih h1 h2

theorem char_toNat_inj {a b : Char} (h : a.toNat = b.toNat) : a = b := by
  rw [← Char.ofNat_toNat a, h, Char.ofNat_toNat]

theorem lexLe_antisymm {a b : List Char} (h1 : lexLe a b = true)
    (h2 : lexLe b a = true) : a = b := by
  induction a generalizing b with
  | nil =>
    cases b with
    | nil => rfl
    | cons y ys => simp [lexLe] at h2
  | cons x xs ih =>
    cases b with
    | nil => simp [lexLe] at h1
    | cons y ys =>
      simp only [lexLe] at h1 h2
      by_cases hxy : x.toNat < y.toNat
      · simp [show ¬ y.toNat < x.toNat by omega, hxy] at h2
      · by_cases hyx : y.toNat < x.toNat
        · simp [hxy, hyx] at h1
        · simp only [hxy, hyx, if_false, ite_false] at h1 h2
          have : x = y := char_toNat_inj (by omega)
          rw [this, ih h1 h2]

instance : IsTotal String keyLe := ⟨fun a b => lexLe_total a.data b.data⟩

instance : IsTrans String keyLe := ⟨fun _ _ _ h1 h2 => lexLe_trans h1 h2⟩

instance : IsAntisymm String keyLe :=
  ⟨fun a b h1 h2 => by
    cases a; cases b
    simp only [keyLe] at h1 h2
    exact congrArg String.mk (lexLe_antisymm h1 h2)⟩

instance : IsRefl String keyLe :=
  ⟨fun a => by
    rcases lexLe_total a.data a.data with h | h <;> exact h⟩

theorem getByKeyList_key {l : List SakDbField} {k : String} {f : SakDbField}
    (h : getByKeyList l k = some f) : f.key = k := by
  induction l with
  | nil => simp [getByKeyList] at h
  | cons g gs ih =>
    simp only [getByKeyList] at h
    split at h
    · cases h; assumption
    · exact ih h

theorem getByKeyList_mem {l : List SakDbField} {k : String} {f : SakDbField}
    (h : getByKeyList l k = some f) : f ∈ l := by
  induction l with
  | nil => simp [getByKeyList] at h
  | cons g gs ih =>
    simp only [getByKeyList] at h
    split at h
    · cases h; exact List.mem_cons_self _ _
    · exact List.mem_cons_of_mem _ (ih h)

theorem getByKeyList_eq_none_iff {l : List SakDbField} {k : String} :
    getByKeyList l k = none ↔ k ∉ l.map SakDbField.key := by
  induction l with
  | nil => simp [getByKeyList]
  | cons g gs ih =>
    simp only [getByKeyList, List.map_cons, List.mem_cons]
    by_cases hgk : g.key = k
    · simp [hgk]
    · rw [if_neg hgk, ih]
      simp [Ne.symm hgk]

theorem getByKey_filterMap (pick : String → Option SakDbField) (L : List String)
    (k : String) (hpick : ∀ k f, pick k = some f → f.key = k) :
    getByKeyList (L.filterMap pick) k = if k ∈ L then pick k else none := by
  induction L with
  | nil => simp [getByKeyList]
  | cons a L ih =>
    by_cases hak : k = a
    · subst hak
      cases hp : pick k with
      | none =>
        simp only [List.filterMap_cons, hp]
        rw [ih]
        by_cases hm : k ∈ L
        · rw [if_pos hm, if_pos (List.mem_cons_self k L)]
          exact hp
        · rw [if_neg hm, if_pos (List.mem_cons_self k L)]
      | some f =>
        have hf := hpick k f hp
        simp only [List.filterMap_cons, hp, getByKeyList]
        rw [if_pos hf, if_pos (List.mem_cons_self k L)]
    · have hmemiff : (k ∈ a :: L) ↔ (k ∈ L) := by simp [List.mem_cons, hak]
      cases hp : pick a with
      | none =>
        simp only [List.filterMap_cons, hp]
        rw [ih]
        by_cases hm : k ∈ L
        · rw [if_pos hm, if_pos (hmemiff.mpr hm)]
        · rw [if_neg hm, if_neg (fun hc => hm (hmemiff.mp hc))]
      | some f =>
        have hfk : ¬ f.key = k := by
          rw [hpick a f hp]; exact fun hc => hak hc.symm
        simp only [List.filterMap_cons, hp, getByKeyList]
        rw [if_neg hfk, ih]
        by_cases hm : k ∈ L
        · rw [if_pos hm, if_pos (hmemiff.mpr hm)]
        · rw [if_neg hm, if_neg (fun hc => hm (hmemiff.mp hc))]

theorem mergePick_key {o t : SakDbFields} {k : String} {f : SakDbField}
    (h : mergePick o t k = some f) : f.key = k := by
  unfold mergePick at h
  cases ho : o.get_by_key k with
  | some fo =>
    cases ht : t.get_by_key k with
    | some ft =>
      simp only [ho, ht] at h
      cases h
      split
      · exact getByKeyList_key ho
      · exact getByKeyList_key ht
    | none =>
      simp only [ho, ht] at h
      cases h
      exact getByKeyList_key ho
  | none =>
    cases ht : t.get_by_key k with
    | some ft =>
      simp only [ho, ht] at h
      cases h
      exact getByKeyList_key ht
    | none => simp [ho, ht] at h

theorem mem_sorted_keys {a b : List String} {k : String} :
    k ∈ sorted_keys a b ↔ k ∈ a ∨ k ∈ b := by
  unfold sorted_keys
  rw [(List.perm_insertionSort keyLe _).mem_iff, List.mem_dedup, List.mem_append]

theorem nodup_sorted_keys (a b : List String) : (sorted_keys a b).Nodup :=
  (List.perm_insertionSort keyLe _).nodup_iff.mpr (List.nodup_dedup _)

theorem sorted_sorted_keys (a b : List String) :
    List.Sorted keyLe (sorted_keys a b) :=
  List.sorted_insertionSort keyLe _

theorem get_keys_mem_iff {x : SakDbFields} {k : String} :
    k ∈ x.get_keys ↔ x.get_by_key k ≠ none := by
  unfold SakDbFields.get_keys SakDbFields.get_by_key
  rw [Ne, getByKeyList_eq_none_iff]
  tauto

/-- Core shape of both two-sided branches of sakdb_fields.merge. -/
theorem merge_two_sided_get (o t : SakDbFields) (b : Option SakDbFields)
    (k : String) :
    (merge b (some o) (some t)).get_by_key k = mergePick o t k := by
  have main :
      getByKeyList ((sorted_keys o.get_keys t.get_keys).filterMap (mergePick o t)) k
        = mergePick o t k := by
    rw [getByKey_filterMap (mergePick o t) _ k (fun _ _ h => mergePick_key h)]
    by_cases hm : k ∈ sorted_keys o.get_keys t.get_keys
    · simp [hm]
    · rw [if_neg hm]
      rw [mem_sorted_keys] at hm
      push_neg at hm
      have ho : o.get_by_key k = none := by
        by_contra h; exact hm.1 (get_keys_mem_iff.mpr h)
      have ht : t.get_by_key k = none := by
        by_contra h; exact hm.2 (get_keys_mem_iff.mpr h)
      simp [mergePick, ho, ht]
  cases b with
  | none => exact main
  | some base => exact main

/-! Claim theorems for the merge function. -/

/-- C1: for merge(base, ours, theirs) with both ours and theirs present, each
key held by both sides yields the field with strictly greater ts (ties go to
theirs, since `>` picks ours only on strict greater), and a key held by one
side yields that side's field. -/
theorem merge_newest_wins (b : Option SakDbFields) (o t : SakDbFields)
    (k : String) :
    (merge b (some o) (some t)).get_by_key k =
      match o.get_by_key k, t.get_by_key k with
      | some fo, some ft => some (if fo.ts > ft.ts then fo else ft)
      | some fo, none => some fo
      | none, some ft => some ft
      | none, none => none := by
  rw [merge_two_sided_get]
  unfold mergePick
  rfl

/-- C3 counterexample: with a base present and only ours present, merge
returns the empty record, not the present side. -/
theorem merge_base_one_side_cex :
    merge (some ⟨[⟨1, "a", "c", "p"⟩]⟩) (some ⟨[⟨1, "a", "c", "p"⟩]⟩) none
        = ⟨[]⟩ ∧
      (⟨[⟨1, "a", "c", "p"⟩]⟩ : SakDbFields).fields ≠ [] := by
  constructor
  · rfl
  · decide

/-- C3 amended: when base is present and exactly one of ours/theirs is
present, merge falls through every branch and returns the empty record. -/
theorem merge_base_one_side (b x : SakDbFields) :
    merge (some b) (some x) none = ⟨[]⟩ ∧ merge (some b) none (some x) = ⟨[]⟩ :=
  ⟨rfl, rfl⟩

theorem mergePick_self (x : SakDbFields) (k : String) :
    mergePick x x k = x.get_by_key k := by
  unfold mergePick
  cases h : x.get_by_key k with
  | none => rfl
  | some f => simp

theorem filterMap_getByKey_self (fs : List SakDbField)
    (h : (fs.map SakDbField.key).Nodup) :
    (fs.map SakDbField.key).filterMap (fun k => getByKeyList fs k) = fs := by
  induction fs with
  | nil => rfl
  | cons f rest ih =>
    simp only [List.map_cons, List.nodup_cons, List.mem_map] at h
    obtain ⟨hnot, hrest⟩ := h
    have hhead : getByKeyList (f :: rest) f.key = some f := by
      simp [getByKeyList]
    have hcongr :
        (rest.map SakDbField.key).filterMap (fun k => getByKeyList (f :: rest) k)
          = (rest.map SakDbField.key).filterMap (fun k => getByKeyList rest k) := by
      apply List.filterMap_congr
      intro k hk
      rcases List.mem_map.mp hk with ⟨g, hg, hgk⟩
      have hne : ¬ f.key = k := by
        intro hc
        exact hnot ⟨g, hg, by rw [hgk, hc]⟩
      simp [getByKeyList, hne]
    simp only [List.map_cons, List.filterMap_cons, hhead, hcongr, ih hrest]

theorem sorted_keys_self {l : List String} (hnd : l.Nodup)
    (hs : List.Sorted keyLe l) : sorted_keys l l = l := by
  apply List.eq_of_perm_of_sorted _ (sorted_sorted_keys l l) hs
  rw [List.perm_ext_iff_of_nodup (nodup_sorted_keys l l) hnd]
  intro a
  rw [mem_sorted_keys]
  tauto

/-- C4: merge(b, x, x) agrees with x on every key (same keyed field set); and
when x has no duplicate keys and its fields are already in ascending key
order, merge(b, x, x) is exactly x.  (Without sortedness the merge re-sorts
the fields; see the counterexample.) -/
theorem merge_idem (b : Option SakDbFields) (x : SakDbFields) :
    (∀ k, (merge b (some x) (some x)).get_by_key k = x.get_by_key k) ∧
      ((x.fields.map SakDbField.key).Nodup →
        List.Sorted keyLe (x.fields.map SakDbField.key) →
        merge b (some x) (some x) = x) := by
  constructor
  · intro k
    rw [merge_two_sided_get, mergePick_self]
  · intro hnd hs
    have hkeys : sorted_keys x.get_keys x.get_keys = x.fields.map SakDbField.key :=
      sorted_keys_self hnd hs
    have hpick :
        (x.fields.map SakDbField.key).filterMap (mergePick x x)
          = (x.fields.map SakDbField.key).filterMap
              (fun k => getByKeyList x.fields k) := by
      apply List.filterMap_congr
      intro k _
      rw [mergePick_self]
      rfl
    have hbody :
        (sorted_keys x.get_keys x.get_keys).filterMap (mergePick x x) = x.fields := by
      rw [hkeys, hpick, filterMap_getByKey_self x.fields hnd]
    cases b with
    | none =>
      show SakDbFields.mk ((sorted_keys x.get_keys x.get_keys).filterMap (mergePick x x)) = x
      rw [hbody]
    | some base =>
      show SakDbFields.mk ((sorted_keys x.get_keys x.get_keys).filterMap (mergePick x x)) = x
      rw [hbody]

/-- C4 counterexample: a record with distinct but unsorted keys is re-sorted
by merge, so merge(None, x, x) is not exactly x. -/
theorem merge_idem_cex :
    merge none (some ⟨[⟨1, "b", "c", "p"⟩, ⟨1, "a", "c", "p"⟩]⟩)
        (some ⟨[⟨1, "b", "c", "p"⟩, ⟨1, "a", "c", "p"⟩]⟩)
      ≠ ⟨[⟨1, "b", "c", "p"⟩, ⟨1, "a", "c", "p"⟩]⟩ ∧
    ((⟨[⟨1, "b", "c", "p"⟩, ⟨1, "a", "c", "p"⟩]⟩ : SakDbFields).fields.map
        SakDbField.key).Nodup := by
  constructor
  · decide
  · decide

/-- C4 witness: a concrete sorted duplicate-free record is returned exactly. -/
theorem merge_idem_witness :
    merge none (some ⟨[⟨1, "a", "c", "p"⟩, ⟨2, "b", "c", "q"⟩]⟩)
        (some ⟨[⟨1, "a", "c", "p"⟩, ⟨2, "b", "c", "q"⟩]⟩)
      = ⟨[⟨1, "a", "c", "p"⟩, ⟨2, "b", "c", "q"⟩]⟩ :=
  (merge_idem none ⟨[⟨1, "a", "c", "p"⟩, ⟨2, "b", "c", "q"⟩]⟩).2
    (by decide) (by decide)

/-- C5: if every key present on both sides carries strictly distinct
timestamps, merging in either order produces the same fields. -/
theorem merge_comm (b b2 : Option SakDbFields) (x y : SakDbFields)
    (h : ∀ k fx fy, x.get_by_key k = some fx → y.get_by_key k = some fy →
      fx.ts ≠ fy.ts) :
    (merge b (some x) (some y)).fields = (merge b2 (some y) (some x)).fields := by
  have hkeys : sorted_keys x.get_keys y.get_keys = sorted_keys y.get_keys x.get_keys := by
    apply List.eq_of_perm_of_sorted _ (sorted_sorted_keys _ _) (sorted_sorted_keys _ _)
    rw [List.perm_ext_iff_of_nodup (nodup_sorted_keys _ _) (nodup_sorted_keys _ _)]
    intro a
    rw [mem_sorted_keys, mem_sorted_keys]
    tauto
  have hpick : ∀ k, mergePick x y k = mergePick y x k := by
    intro k
    unfold mergePick
    cases hx : x.get_by_key k with
    | none => cases hy : y.get_by_key k <;> simp
    | some fx =>
      cases hy : y.get_by_key k with
      | none => simp
      | some fy =>
        have hne := h k fx fy hx hy
        simp only
        by_cases hgt : fx.ts > fy.ts
        · have : ¬ fy.ts > fx.ts := by omega
          simp [hgt, this]
        · have : fy.ts > fx.ts := by omega
          simp [hgt, this]
  have hbody :
      (sorted_keys x.get_keys y.get_keys).filterMap (mergePick x y)
        = (sorted_keys y.get_keys x.get_keys).filterMap (mergePick y x) := by
    rw [hkeys]
    exact List.filterMap_congr (fun k _ => hpick k)
  cases b with
  | none =>
    cases b2 with
    | none => exact hbody
    | some base2 => exact hbody
  | some base =>
    cases b2 with
    | none => exact hbody
    | some base2 => exact hbody

/-- C5 witness: two concrete single-field records with distinct timestamps
merge to the same fields in either order. -/
theorem merge_comm_witness :
    (merge none (some ⟨[⟨1, "a", "c", "p"⟩]⟩) (some ⟨[⟨2, "a", "c", "q"⟩]⟩)).fields
      = (merge none (some ⟨[⟨2, "a", "c", "q"⟩]⟩) (some ⟨[⟨1, "a", "c", "p"⟩]⟩)).fields := by
  apply merge_comm
  intro k fx fy hx hy
  have h1 : fx ∈ [(⟨1, "a", "c", "p"⟩ : SakDbField)] := getByKeyList_mem hx
  have h2 : fy ∈ [(⟨2, "a", "c", "q"⟩ : SakDbField)] := getByKeyList_mem hy
  rw [List.mem_singleton] at h1 h2
  subst h1
  subst h2
  decide

/-! Lemmas for the session staging write (C6). -/

theorem lookupStr_dictInsert_self {α : Type} (m : List (String × α)) (k : String)
    (v : α) : lookupStr (dictInsert m k v) k = some v := by
  induction m with
  | nil => simp [dictInsert, lookupStr]
  | cons p rest ih =>
    obtain ⟨k0, v0⟩ := p
    by_cases hk : k0 = k
    · simp [dictInsert, hk, lookupStr]
    · have e1 : dictInsert ((k0, v0) :: rest) k v = (k0, v0) :: dictInsert rest k v := by
        simp [dictInsert, hk]
      rw [e1]
      show (if k0 = k then some v0 else lookupStr (dictInsert rest k v) k) = some v
      rw [if_neg hk]
      exact ih

theorem patchKey (f pf : SakDbField) :
    (if f.crc = pf.crc then { f with ts := pf.ts } else f).key = f.key := by
  split <;> rfl

theorem patchFirst_get_ne {l : List SakDbField} {pf : SakDbField} {k : String}
    (h : k ≠ pf.key) : getByKeyList (patchFirst l pf) k = getByKeyList l k := by
  induction l with
  | nil => rfl
  | cons f fs ih =>
    by_cases hf : f.key = pf.key
    · have hfk : ¬ f.key = k := by rw [hf]; exact fun hc => h hc.symm
      have e1 : patchFirst (f :: fs) pf
          = (if f.crc = pf.crc then { f with ts := pf.ts } else f) :: fs := by
        simp [patchFirst, hf]
      rw [e1]
      show (if (if f.crc = pf.crc then { f with ts := pf.ts } else f).key = k
          then some (if f.crc = pf.crc then { f with ts := pf.ts } else f)
          else getByKeyList fs k)
        = if f.key = k then some f else getByKeyList fs k
      rw [patchKey, if_neg hfk, if_neg hfk]
    · have e1 : patchFirst (f :: fs) pf = f :: patchFirst fs pf := by
        simp [patchFirst, hf]
      rw [e1]
      show (if f.key = k then some f else getByKeyList (patchFirst fs pf) k)
        = if f.key = k then some f else getByKeyList fs k
      rw [ih]

theorem patchFirst_get_eq {l : List SakDbField} {pf f : SakDbField}
    (h : getByKeyList l pf.key = some f) :
    getByKeyList (patchFirst l pf) pf.key
      = some (if f.crc = pf.crc then { f with ts := pf.ts } else f) := by
  induction l with
  | nil => simp [getByKeyList] at h
  | cons g gs ih =>
    by_cases hg : g.key = pf.key
    · have h2 : some g = some f := by
        have e0 : getByKeyList (g :: gs) pf.key
            = if g.key = pf.key then some g else getByKeyList gs pf.key := rfl
        rw [e0, if_pos hg] at h
        exact h
      have h3 : g = f := by injection h2
      subst h3
      have e1 : patchFirst (g :: gs) pf
          = (if g.crc = pf.crc then { g with ts := pf.ts } else g) :: gs := by
        simp [patchFirst, hg]
      rw [e1]
      show (if (if g.crc = pf.crc then { g with ts := pf.ts } else g).key = pf.key
          then some (if g.crc = pf.crc then { g with ts := pf.ts } else g)
          else getByKeyList gs pf.key)
        = some (if g.crc = pf.crc then { g with ts := pf.ts } else g)
      rw [patchKey, if_pos hg]
    · have h2 : getByKeyList gs pf.key = some f := by
        have e0 : getByKeyList (g :: gs) pf.key
            = if g.key = pf.key then some g else getByKeyList gs pf.key := rfl
        rw [e0, if_neg hg] at h
        exact h
      have e1 : patchFirst (g :: gs) pf = g :: patchFirst gs pf := by
        simp [patchFirst, hg]
      rw [e1]
      show (if g.key = pf.key then some g else getByKeyList (patchFirst gs pf) pf.key)
        = some (if f.crc = pf.crc then { f with ts := pf.ts } else f)
      rw [if_neg hg]
      exact ih h2

theorem foldPatch_get_notmem {prevs : List SakDbField} {acc : List SakDbField}
    {k : String} (h : k ∉ prevs.map SakDbField.key) :
    getByKeyList (prevs.foldl patchFirst acc) k = getByKeyList acc k := by
  induction prevs generalizing acc with
  | nil => rfl
  | cons q rest ih =>
    simp only [List.map_cons, List.mem_cons] at h
    push_neg at h
    rw [List.foldl_cons, ih h.2, patchFirst_get_ne h.1]

theorem foldPatch_get_sanitized {prevs : List SakDbField} {acc : List SakDbField}
    {k : String} {pf nf : SakDbField}
    (hnd : (prevs.map SakDbField.key).Nodup)
    (hpf : getByKeyList prevs k = some pf)
    (hnf : getByKeyList acc k = some nf)
    (hcrc : nf.crc = pf.crc) :
    getByKeyList (prevs.foldl patchFirst acc) k = some { nf with ts := pf.ts } := by
  induction prevs generalizing acc with
  | nil => simp [getByKeyList] at hpf
  | cons q rest ih =>
    simp only [List.map_cons, List.nodup_cons] at hnd
    by_cases hq : q.key = k
    · simp only [getByKeyList, hq, if_pos rfl] at hpf
      cases hpf
      have hget : getByKeyList acc pf.key = some nf := by rw [hq]; exact hnf
      have hstep := patchFirst_get_eq hget
      rw [if_pos hcrc] at hstep
      have hnot : k ∉ rest.map SakDbField.key := by
        rw [← hq]; exact hnd.1
      rw [List.foldl_cons, foldPatch_get_notmem hnot]
      rw [← hq]
      exact hstep
    · simp only [getByKeyList, hq, if_false, ite_false] at hpf
      rw [List.foldl_cons]
      have hacc : getByKeyList (patchFirst acc q) k = some nf := by
        rw [patchFirst_get_ne (fun hc => hq hc.symm)]
        exact hnf
      exact ih hnd.2 hpf hacc

/-- C6: when a write stages a record at a path that already has a staged
record, any new field whose key appears in the staged record with the same
crc keeps the staged field's ts: the staged entry after the write maps that
key to the staged field itself (the sanitization copies the staged ts onto
the new field, and the `>` tie-break of merge then selects theirs). -/
theorem session_write_preserves_ts (changes : List (String × SakDbFields))
    (path : String) (value prev : SakDbFields) (k : String) (nf pf : SakDbField)
    (hprev : lookupStr changes path = some prev)
    (hnd : (prev.fields.map SakDbField.key).Nodup)
    (hnf : value.get_by_key k = some nf)
    (hpf : prev.get_by_key k = some pf)
    (hcrc : nf.crc = pf.crc) :
    ∃ staged,
      lookupStr (SakDbSessionChanges_write changes path value) path = some staged ∧
        staged.get_by_key k = some pf := by
  refine ⟨merge none (some (sanitize_ts value prev)) (some prev), ?_, ?_⟩
  · unfold SakDbSessionChanges_write
    rw [hprev]
    exact lookupStr_dictInsert_self _ _ _
  · rw [merge_two_sided_get]
    have hsan : (sanitize_ts value prev).get_by_key k = some { nf with ts := pf.ts } :=
      foldPatch_get_sanitized hnd hpf hnf hcrc
    unfold mergePick
    rw [hsan, hpf]
    simp

/-- C6 witness: a concrete re-write of an unchanged (same key, same crc)
field keeps the previously staged timestamp 5. -/
theorem session_write_preserves_ts_witness :
    ∃ staged,
      lookupStr
          (SakDbSessionChanges_write [("p", ⟨[⟨5, "k", "c", "old"⟩]⟩)] "p"
            ⟨[⟨9, "k", "c", "new"⟩]⟩) "p" = some staged ∧
        staged.get_by_key "k" = some ⟨5, "k", "c", "old"⟩ :=
  session_write_preserves_ts [("p", ⟨[⟨5, "k", "c", "old"⟩]⟩)] "p"
    ⟨[⟨9, "k", "c", "new"⟩]⟩ ⟨[⟨5, "k", "c", "old"⟩]⟩ "k"
    ⟨9, "k", "c", "new"⟩ ⟨5, "k", "c", "old"⟩
    (by decide) (by decide) (by decide) (by decide) (by decide)

/-! Round-trip of the json string escaping (for C2). -/

theorem char_toNat_ofNat {n : Nat} (h : n.isValidChar) :
    (Char.ofNat n).toNat = n := by
  unfold Char.ofNat
  rw [dif_pos h]
  rfl

theorem char_valid (c : Char) :
    c.toNat < 55296 ∨ (57343 < c.toNat ∧ c.toNat < 1114112) := c.valid

theorem hexVal_hexDigit {n : Nat} (h : n < 16) : hexVal (hexDigit n) = some n := by
  interval_cases n <;> rfl

theorem parseJsonStringBody_cons (fuel : Nat) (c : Char) (rest : List Char) :
    parseJsonStringBody (fuel + 1) (c :: rest)
      = if c = '\"' then some ([], rest)
        else if c = '\\' then
          match parseEscape rest with
          | none => none
          | some (e, rs) =>
            (parseJsonStringBody fuel rs).map (fun p => (e :: p.1, p.2))
        else if c.toNat < 32 then none
        else (parseJsonStringBody fuel rest).map (fun p => (c :: p.1, p.2)) := rfl

theorem parseEscape_u (a b c d : Char) (rs : List Char) :
    parseEscape ('u' :: a :: b :: c :: d :: rs)
      = match hexVal a, hexVal b, hexVal c, hexVal d with
        | some va, some vb, some vc, some vd =>
          escape_combine (((va * 16 + vb) * 16 + vc) * 16 + vd) rs
        | _, _, _, _ => none := rfl

theorem escape_combine_scalar {n : Nat} (h1 : ¬ (55296 ≤ n ∧ n ≤ 56319))
    (h2 : ¬ (56320 ≤ n ∧ n ≤ 57343)) (rs : List Char) :
    escape_combine n rs = some (Char.ofNat n, rs) := by
  unfold escape_combine
  rw [if_neg h1, if_neg h2]

theorem escape_combine_high {n : Nat} (h : 55296 ≤ n ∧ n ≤ 56319)
    (rs : List Char) :
    escape_combine n rs
      = match parseLowSurrogate rs with
        | some (m, rs2) =>
          some (Char.ofNat (65536 + (n - 55296) * 1024 + (m - 56320)), rs2)
        | none => none := by
  unfold escape_combine
  rw [if_pos h]

theorem hex_unfold (m : Nat) (h : m < 65536) :
    ((m / 4096 % 16 * 16 + m / 256 % 16) * 16 + m / 16 % 16) * 16 + m % 16 = m := by
  omega

theorem parseLowSurrogate_hex (m : Nat) (hlo : 56320 ≤ m) (hhi : m ≤ 57343)
    (rs : List Char) :
    parseLowSurrogate ('\\' :: 'u' :: toHex4 m ++ rs) = some (m, rs) := by
  unfold toHex4
  simp only [List.cons_append, List.nil_append]
  have e : parseLowSurrogate ('\\' :: 'u' :: hexDigit (m / 4096 % 16)
        :: hexDigit (m / 256 % 16) :: hexDigit (m / 16 % 16) :: hexDigit (m % 16) :: rs)
      = match hexVal (hexDigit (m / 4096 % 16)), hexVal (hexDigit (m / 256 % 16)),
          hexVal (hexDigit (m / 16 % 16)), hexVal (hexDigit (m % 16)) with
        | some ve, some vf, some vg, some vh =>
          let m2 := ((ve * 16 + vf) * 16 + vg) * 16 + vh
          if 56320 ≤ m2 ∧ m2 ≤ 57343 then some (m2, rs) else none
        | _, _, _, _ => none := rfl
  rw [e, hexVal_hexDigit (by omega), hexVal_hexDigit (by omega),
    hexVal_hexDigit (by omega), hexVal_hexDigit (by omega)]
  simp only
  rw [hex_unfold m (by omega), if_pos ⟨hlo, hhi⟩]

theorem parseEscape_toHex4 (v : Nat) (hv : v < 65536)
    (hns : ¬ (55296 ≤ v ∧ v ≤ 56319)) (hns2 : ¬ (56320 ≤ v ∧ v ≤ 57343))
    (rest : List Char) :
    parseEscape ('u' :: toHex4 v ++ rest) = some (Char.ofNat v, rest) := by
  unfold toHex4
  simp only [List.cons_append, List.nil_append]
  rw [parseEscape_u]
  rw [hexVal_hexDigit (by omega), hexVal_hexDigit (by omega),
    hexVal_hexDigit (by omega), hexVal_hexDigit (by omega)]
  dsimp only
  rw [hex_unfold v hv, escape_combine_scalar hns hns2]

theorem parseEscape_surrogates (v : Nat) (hv1 : 65536 ≤ v) (hv2 : v < 1114112)
    (rest : List Char) :
    parseEscape ('u' :: toHex4 (55296 + (v - 65536) / 1024)
        ++ ('\\' :: 'u' :: toHex4 (56320 + (v - 65536) % 1024)) ++ rest)
      = some (Char.ofNat v, rest) := by
  rw [show toHex4 (55296 + (v - 65536) / 1024)
      = hexDigit ((55296 + (v - 65536) / 1024) / 4096 % 16)
        :: hexDigit ((55296 + (v - 65536) / 1024) / 256 % 16)
        :: hexDigit ((55296 + (v - 65536) / 1024) / 16 % 16)
        :: [hexDigit ((55296 + (v - 65536) / 1024) % 16)] from rfl]
  simp only [List.cons_append, List.nil_append]
  rw [parseEscape_u]
  rw [hexVal_hexDigit (by omega), hexVal_hexDigit (by omega),
    hexVal_hexDigit (by omega), hexVal_hexDigit (by omega)]
  dsimp only
  rw [hex_unfold (55296 + (v - 65536) / 1024) (by omega)]
  rw [escape_combine_high (by constructor <;> omega)]
  have hlow := parseLowSurrogate_hex (56320 + (v - 65536) % 1024)
    (by omega) (by omega) rest
  simp only [List.cons_append] at hlow
  rw [hlow]
  dsimp only
  have hcomb : 65536 + (55296 + (v - 65536) / 1024 - 55296) * 1024
      + (56320 + (v - 65536) % 1024 - 56320) = v := by
    omega
  rw [hcomb]

theorem escape_roundtrip (fuel : Nat) (c : Char) (rest : List Char) :
    parseJsonStringBody (fuel + 1) (escapeChar c ++ rest)
      = (parseJsonStringBody fuel rest).map (fun p => (c :: p.1, p.2)) := by
  by_cases h1 : c = '\\'
  · subst h1; rfl
  · by_cases h2 : c = '\"'
    · subst h2; rfl
    · by_cases h3 : c.toNat = 8
      · have hc : c = '\x08' := char_toNat_inj h3
        subst hc; rfl
      · by_cases h4 : c.toNat = 9
        · have hc : c = '\t' := char_toNat_inj h4
          subst hc; rfl
        · by_cases h5 : c.toNat = 10
          · have hc : c = '\n' := char_toNat_inj h5
            subst hc; rfl
          · by_cases h6 : c.toNat = 12
            · have hc : c = '\x0c' := char_toNat_inj h6
              subst hc; rfl
            · by_cases h7 : c.toNat = 13
              · have hc : c = '\r' := char_toNat_inj h7
                subst hc; rfl
              · by_cases h8 : c.toNat < 32 ∨ 126 < c.toNat
                · by_cases h9 : c.toNat < 65536
                  · have hesc : escapeChar c = '\\' :: 'u' :: toHex4 c.toNat := by
                      unfold escapeChar
                      rw [if_neg h1, if_neg h2, if_neg h3, if_neg h4, if_neg h5,
                        if_neg h6, if_neg h7, if_pos h8, if_pos h9]
                    rw [hesc]
                    simp only [List.cons_append]
                    rw [parseJsonStringBody_cons, if_neg (by decide), if_pos rfl]
                    have hns : ¬ (55296 ≤ c.toNat ∧ c.toNat ≤ 56319) := by
                      rcases char_valid c with h | h <;> omega
                    have hns2 : ¬ (56320 ≤ c.toNat ∧ c.toNat ≤ 57343) := by
                      rcases char_valid c with h | h <;> omega
                    have hp := parseEscape_toHex4 c.toNat h9 hns hns2 rest
                    simp only [List.cons_append] at hp
                    rw [hp, Char.ofNat_toNat]
                  · have hesc : escapeChar c
                        = ('\\' :: 'u' :: toHex4 (55296 + (c.toNat - 65536) / 1024))
                          ++ ('\\' :: 'u' :: toHex4 (56320 + (c.toNat - 65536) % 1024)) := by
                      unfold escapeChar
                      rw [if_neg h1, if_neg h2, if_neg h3, if_neg h4, if_neg h5,
                        if_neg h6, if_neg h7, if_pos h8, if_neg h9]
                    have hbig : 57343 < c.toNat ∧ c.toNat < 1114112 := by
                      rcases char_valid c with h | h <;> omega
                    rw [hesc]
                    simp only [List.cons_append, List.append_assoc]
                    rw [parseJsonStringBody_cons, if_neg (by decide), if_pos rfl]
                    have hp := parseEscape_surrogates c.toNat (by omega) (by omega) rest
                    simp only [List.cons_append, List.append_assoc, List.nil_append] at hp
                    rw [hp, Char.ofNat_toNat]
                · have hesc : escapeChar c = [c] := by
                    unfold escapeChar
                    rw [if_neg h1, if_neg h2, if_neg h3, if_neg h4, if_neg h5,
                      if_neg h6, if_neg h7, if_neg h8]
                  rw [hesc]
                  simp only [List.cons_append, List.nil_append]
                  rw [parseJsonStringBody_cons, if_neg h2, if_neg h1,
                    if_neg (by push_neg at h8; omega)]

theorem body_flatten (l : List Char) (fuel : Nat) (rest : List Char) :
    parseJsonStringBody (l.length + fuel + 1) ((l.map escapeChar).flatten ++ '\"' :: rest)
      = some (l, rest) := by
  induction l generalizing fuel with
  | nil =>
    simp only [List.map_nil, List.flatten_nil, List.nil_append, List.length_nil,
      Nat.zero_add]
    rw [parseJsonStringBody_cons, if_pos rfl]
  | cons c l2 ih =>
    simp only [List.map_cons, List.flatten_cons, List.length_cons, List.append_assoc]
    have harith : l2.length + 1 + fuel + 1 = (l2.length + fuel + 1) + 1 := by omega
    rw [harith, escape_roundtrip, ih fuel]
    rfl

theorem body_mono {fuel fuel2 : Nat} (h : fuel ≤ fuel2) {xs : List Char}
    {r : List Char × List Char} (hr : parseJsonStringBody fuel xs = some r) :
    parseJsonStringBody fuel2 xs = some r := by
  induction fuel generalizing fuel2 xs r with
  | zero => simp [parseJsonStringBody] at hr
  | succ fuel ih =>
    obtain ⟨f2, rfl⟩ : ∃ f2, fuel2 = f2 + 1 := ⟨fuel2 - 1, by omega⟩
    cases xs with
    | nil => simp [parseJsonStringBody] at hr
    | cons c rest =>
      rw [parseJsonStringBody_cons] at hr
      rw [parseJsonStringBody_cons]
      by_cases h1 : c = '\"'
      · rw [if_pos h1] at hr
        rw [if_pos h1]
        exact hr
      · rw [if_neg h1] at hr
        rw [if_neg h1]
        by_cases h2 : c = '\\'
        · rw [if_pos h2] at hr
          rw [if_pos h2]
          cases he : parseEscape rest with
          | none => rw [he] at hr; cases hr
          | some pr =>
            obtain ⟨e, rs⟩ := pr
            rw [he] at hr
            dsimp only at hr ⊢
            cases hb : parseJsonStringBody fuel rs with
            | none => rw [hb] at hr; cases hr
            | some p =>
              rw [hb] at hr
              rw [ih (by omega) hb]
              exact hr
        · rw [if_neg h2] at hr
          rw [if_neg h2]
          by_cases h3 : c.toNat < 32
          · rw [if_pos h3] at hr; cases hr
          · rw [if_neg h3] at hr
            rw [if_neg h3]
            cases hb : parseJsonStringBody fuel rest with
            | none => rw [hb] at hr; cases hr
            | some p =>
              rw [hb] at hr
              rw [ih (by omega) hb]
              exact hr

theorem escapeChar_length_pos (c : Char) : 1 ≤ (escapeChar c).length := by
  unfold escapeChar
  split_ifs <;> simp

theorem flatten_escape_length (l : List Char) :
    l.length ≤ ((l.map escapeChar).flatten).length := by
  induction l with
  | nil => simp
  | cons c l2 ih =>
    simp only [List.map_cons, List.flatten_cons, List.length_cons, List.length_append]
    have := escapeChar_length_pos c
    omega

theorem parseJsonString_encode (s : String) (rest : List Char) :
    parseJsonString (encodeJsonString s ++ rest) = some (s, rest) := by
  have hshape : encodeJsonString s ++ rest
      = '\"' :: ((s.data.map escapeChar).flatten ++ '\"' :: rest) := by
    unfold encodeJsonString
    simp [List.append_assoc]
  rw [hshape]
  have e : parseJsonString ('\"' :: ((s.data.map escapeChar).flatten ++ '\"' :: rest))
      = (parseJsonStringBody
            (((s.data.map escapeChar).flatten ++ '\"' :: rest).length + 1)
            ((s.data.map escapeChar).flatten ++ '\"' :: rest)).map
          (fun p => (String.mk p.1, p.2)) := rfl
  rw [e]
  have hbase := body_flatten s.data 0 rest
  have hlen : s.data.length + 0 + 1
      ≤ ((s.data.map escapeChar).flatten ++ '\"' :: rest).length + 1 := by
    simp only [List.length_append, List.length_cons]
    have := flatten_escape_length s.data
    omega
  rw [body_mono hlen hbase]
  rfl

/-! Round-trip of the decimal number rendering (for C2). -/

theorem natToDigitsAux_digits {fuel n : Nat} (h : n < fuel) :
    ∀ c ∈ natToDigitsAux fuel n, isDigitChar c = true := by
  induction fuel generalizing n with
  | zero => omega
  | succ fuel ih =>
    intro c hc
    unfold natToDigitsAux at hc
    by_cases h10 : n < 10
    · rw [if_pos h10] at hc
      simp only [List.mem_singleton] at hc
      subst hc
      unfold isDigitChar
      rw [char_toNat_ofNat (Or.inl (by omega))]
      simp
      omega
    · rw [if_neg h10] at hc
      rcases List.mem_append.mp hc with hc | hc
      · exact ih (by omega) c hc
      · simp only [List.mem_singleton] at hc
        subst hc
        unfold isDigitChar
        rw [char_toNat_ofNat (Or.inl (by omega))]
        simp
        omega

theorem natToDigitsAux_ne_nil {fuel n : Nat} (h : n < fuel) :
    natToDigitsAux fuel n ≠ [] := by
  cases fuel with
  | zero => omega
  | succ fuel =>
    unfold natToDigitsAux
    by_cases h10 : n < 10
    · rw [if_pos h10]; simp
    · rw [if_neg h10]; simp

theorem parseDigitsAux_append {ds : List Char} {rest : List Char} {acc : Nat}
    (h : ∀ c ∈ ds, isDigitChar c = true) :
    parseDigitsAux (ds ++ rest) acc
      = parseDigitsAux rest (ds.foldl (fun a c => a * 10 + (c.toNat - 48)) acc) := by
  induction ds generalizing acc with
  | nil => rfl
  | cons c ds ih =>
    simp only [List.cons_append]
    have e1 : parseDigitsAux (c :: (ds ++ rest)) acc
        = if isDigitChar c = true
          then parseDigitsAux (ds ++ rest) (acc * 10 + (c.toNat - 48))
          else (acc, c :: (ds ++ rest)) := rfl
    rw [e1, if_pos (h c (List.mem_cons_self c ds)),
      ih (fun c2 hc2 => h c2 (List.mem_cons_of_mem c hc2)), List.foldl_cons]

theorem parseDigitsAux_stop {rest : List Char} (acc : Nat)
    (h : headIsDigit rest = false) : parseDigitsAux rest acc = (acc, rest) := by
  cases rest with
  | nil => rfl
  | cons c rs =>
    have h2 : isDigitChar c = false := h
    have e1 : parseDigitsAux (c :: rs) acc
        = if isDigitChar c = true
          then parseDigitsAux rs (acc * 10 + (c.toNat - 48))
          else (acc, c :: rs) := rfl
    rw [e1, if_neg (by simp [h2])]

theorem natToDigitsAux_foldl {fuel n : Nat} (acc : Nat) (h : n < fuel) :
    (natToDigitsAux fuel n).foldl (fun a c => a * 10 + (c.toNat - 48)) acc
      = acc * 10 ^ (natToDigitsAux fuel n).length + n := by
  induction fuel generalizing n acc with
  | zero => omega
  | succ fuel ih =>
    unfold natToDigitsAux
    by_cases h10 : n < 10
    · rw [if_pos h10]
      simp only [List.foldl_cons, List.foldl_nil, List.length_singleton]
      rw [char_toNat_ofNat (Or.inl (by omega))]
      rw [pow_one]
      omega
    · rw [if_neg h10]
      rw [List.foldl_append]
      rw [ih acc (by omega)]
      simp only [List.foldl_cons, List.foldl_nil, List.length_append,
        List.length_singleton]
      rw [char_toNat_ofNat (Or.inl (by omega))]
      rw [pow_succ, ← mul_assoc]
      have hdm := Nat.div_add_mod n 10
      set L := (natToDigitsAux fuel (n / 10)).length
      set A := acc * 10 ^ L
      omega

theorem parseNat_natToDecimal (n : Nat) (rest : List Char)
    (hrest : headIsDigit rest = false) :
    parseNat (natToDecimal n ++ rest) = some (n, rest) := by
  obtain ⟨c, cs, hcons⟩ := List.exists_cons_of_ne_nil
    (natToDigitsAux_ne_nil (show n < n + 1 by omega))
  unfold natToDecimal
  rw [hcons]
  simp only [List.cons_append]
  have hdc : isDigitChar c = true := by
    apply natToDigitsAux_digits (show n < n + 1 by omega)
    rw [hcons]; exact List.mem_cons_self c cs
  unfold parseNat
  dsimp only
  rw [if_pos hdc]
  have happ : parseDigitsAux ((c :: cs) ++ rest) 0
      = parseDigitsAux rest ((c :: cs).foldl (fun a c => a * 10 + (c.toNat - 48)) 0) := by
    apply parseDigitsAux_append
    intro c2 hc2
    apply natToDigitsAux_digits (show n < n + 1 by omega)
    rw [hcons]; exact hc2
  simp only [List.cons_append] at happ
  rw [happ]
  have hfold := @natToDigitsAux_foldl (n + 1) n 0 (by omega)
  rw [hcons] at hfold
  rw [hfold]
  rw [parseDigitsAux_stop _ hrest]
  simp

theorem char_ne_of_toNat_ne {c d : Char} (h : c.toNat ≠ d.toNat) : c ≠ d :=
  fun hc => h (by rw [hc])

theorem natToDecimal_head_digit (n : Nat) :
    ∀ c cs, natToDecimal n = c :: cs → isDigitChar c = true := by
  intro c cs hcons
  apply natToDigitsAux_digits (show n < n + 1 by omega)
  unfold natToDecimal at hcons
  rw [hcons]
  exact List.mem_cons_self c cs

theorem parseJsonNumber_intToDecimal (i : Int) (rest : List Char)
    (hrest : headIsDigit rest = false) :
    parseJsonNumber (intToDecimal i ++ rest) = some (i, rest) := by
  unfold intToDecimal
  by_cases hneg : i < 0
  · rw [if_pos hneg]
    simp only [List.cons_append]
    unfold parseJsonNumber
    dsimp only
    rw [if_pos rfl]
    rw [parseNat_natToDecimal i.natAbs rest hrest]
    simp only [Option.map_some']
    congr 1
    have : ((i.natAbs : Int)) = -i := by
      omega
    rw [this]
    simp
  · rw [if_neg hneg]
    obtain ⟨c, cs, hcons⟩ := List.exists_cons_of_ne_nil
      (natToDigitsAux_ne_nil (show i.natAbs < i.natAbs + 1 by omega))
    have hshape : natToDecimal i.natAbs ++ rest = c :: (cs ++ rest) := by
      unfold natToDecimal
      rw [hcons]
      rfl
    have hdc : isDigitChar c = true := by
      apply natToDigitsAux_digits (show i.natAbs < i.natAbs + 1 by omega)
      rw [hcons]
      exact List.mem_cons_self c cs
    rw [hshape]
    unfold parseJsonNumber
    dsimp only
    have hne : ¬ c = '-' := by
      apply char_ne_of_toNat_ne
      unfold isDigitChar at hdc
      simp at hdc
      intro hc
      rw [hc] at hdc
      simp at hdc
    rw [if_neg hne]
    have : (c :: (cs ++ rest)) = natToDecimal i.natAbs ++ rest := by
      rw [hshape]
    rw [this, parseNat_natToDecimal i.natAbs rest hrest]
    simp only [Option.map_some']
    congr 2
    omega

/-! Json value and header object round-trips (for C2). -/

theorem parseJsonValue_cons (c : Char) (rest : List Char) :
    parseJsonValue (c :: rest)
      = if c = '\"'
        then (parseJsonString (c :: rest)).map (fun p => (JsonVal.str p.1, p.2))
        else (parseJsonNumber (c :: rest)).map (fun p => (JsonVal.num p.1, p.2)) := rfl

theorem parseJsonValue_str (s : String) (rest : List Char) :
    parseJsonValue (encodeJsonString s ++ rest) = some (JsonVal.str s, rest) := by
  have h0 : encodeJsonString s ++ rest
      = '\"' :: (((s.data.map escapeChar).flatten ++ ['\"']) ++ rest) := rfl
  rw [h0, parseJsonValue_cons, if_pos rfl, ← h0, parseJsonString_encode]
  rfl

theorem parseJsonValue_int (i : Int) (rest : List Char)
    (hrest : headIsDigit rest = false) :
    parseJsonValue (intToDecimal i ++ rest) = some (JsonVal.num i, rest) := by
  by_cases hneg : i < 0
  · have hshape : intToDecimal i ++ rest = '-' :: (natToDecimal i.natAbs ++ rest) := by
      unfold intToDecimal
      rw [if_pos hneg]
      rfl
    rw [hshape, parseJsonValue_cons, if_neg (by decide), ← hshape,
      parseJsonNumber_intToDecimal i rest hrest]
    rfl
  · obtain ⟨c, cs, hcons⟩ := List.exists_cons_of_ne_nil
      (natToDigitsAux_ne_nil (show i.natAbs < i.natAbs + 1 by omega))
    have hshape : intToDecimal i ++ rest = c :: (cs ++ rest) := by
      unfold intToDecimal
      rw [if_neg hneg]
      unfold natToDecimal
      rw [hcons]
      rfl
    have hdc : isDigitChar c = true := by
      apply natToDigitsAux_digits (show i.natAbs < i.natAbs + 1 by omega)
      rw [hcons]
      exact List.mem_cons_self c cs
    have hne : ¬ c = '\"' := by
      apply char_ne_of_toNat_ne
      unfold isDigitChar at hdc
      simp at hdc
      intro hc
      rw [hc] at hdc
      simp at hdc
    rw [hshape, parseJsonValue_cons, if_neg hne, ← hshape,
      parseJsonNumber_intToDecimal i rest hrest]
    rfl

theorem parsePairsAux_succ (fuel : Nat) (xs : List Char) :
    parsePairsAux (fuel + 1) xs
      = match parseJsonString xs with
        | none => none
        | some (k, rest) =>
          match rest with
          | [] => none
          | c :: rest2 =>
            if c = ':' then
              match parseJsonValue rest2 with
              | none => none
              | some (v, rest3) =>
                match rest3 with
                | [] => none
                | c2 :: rest4 =>
                  if c2 = ',' then
                    (parsePairsAux fuel rest4).map (fun p => ((k, v) :: p.1, p.2))
                  else if c2 = '\x7d' then some ([(k, v)], rest4)
                  else none
            else none := rfl

theorem parsePairsAux_cons_comma (fuel : Nat) (key : String) (v : JsonVal)
    (venc R : List Char)
    (hval : parseJsonValue (venc ++ ',' :: R) = some (v, ',' :: R)) :
    parsePairsAux (fuel + 1) (encodeJsonString key ++ ':' :: (venc ++ ',' :: R))
      = (parsePairsAux fuel R).map (fun p => ((key, v) :: p.1, p.2)) := by
  rw [parsePairsAux_succ, parseJsonString_encode key (':' :: (venc ++ ',' :: R))]
  dsimp only
  rw [if_pos rfl, hval]
  dsimp only
  rw [if_pos rfl]

theorem parsePairsAux_last (fuel : Nat) (key : String) (v : JsonVal)
    (venc : List Char)
    (hval : parseJsonValue (venc ++ ['\x7d']) = some (v, ['\x7d'])) :
    parsePairsAux (fuel + 1) (encodeJsonString key ++ ':' :: (venc ++ ['\x7d']))
      = some ([(key, v)], []) := by
  rw [parsePairsAux_succ, parseJsonString_encode key (':' :: (venc ++ ['\x7d']))]
  dsimp only
  rw [if_pos rfl, hval]
  dsimp only
  rw [if_neg (by decide), if_pos rfl]

theorem parsePairsAux_mono {fuel fuel2 : Nat} (h : fuel ≤ fuel2)
    {xs : List Char} {r : List (String × JsonVal) × List Char}
    (hr : parsePairsAux fuel xs = some r) : parsePairsAux fuel2 xs = some r := by
  induction fuel generalizing fuel2 xs r with
  | zero => simp [parsePairsAux] at hr
  | succ fuel ih =>
    obtain ⟨f2, rfl⟩ : ∃ f2, fuel2 = f2 + 1 := ⟨fuel2 - 1, by omega⟩
    rw [parsePairsAux_succ] at hr
    rw [parsePairsAux_succ]
    cases hs : parseJsonString xs with
    | none => rw [hs] at hr; cases hr
    | some kr =>
      obtain ⟨k, rest⟩ := kr
      rw [hs] at hr
      dsimp only at hr ⊢
      cases rest with
      | nil => cases hr
      | cons c rest2 =>
        dsimp only at hr ⊢
        by_cases hc : c = ':'
        · rw [if_pos hc] at hr
          rw [if_pos hc]
          cases hv : parseJsonValue rest2 with
          | none => rw [hv] at hr; cases hr
          | some vr =>
            obtain ⟨v, rest3⟩ := vr
            rw [hv] at hr
            dsimp only at hr ⊢
            cases rest3 with
            | nil => cases hr
            | cons c2 rest4 =>
              dsimp only at hr ⊢
              by_cases hc2 : c2 = ','
              · rw [if_pos hc2] at hr
                rw [if_pos hc2]
                cases hp : parsePairsAux fuel rest4 with
                | none => rw [hp] at hr; cases hr
                | some p =>
                  rw [hp] at hr
                  rw [ih (by omega) hp]
                  exact hr
              · rw [if_neg hc2] at hr
                rw [if_neg hc2]
                by_cases hc3 : c2 = '\x7d'
                · rw [if_pos hc3] at hr
                  rw [if_pos hc3]
                  exact hr
                · rw [if_neg hc3] at hr
                  cases hr
        · rw [if_neg hc] at hr
          cases hr

theorem parseJsonObject_cons (c : Char) (rest : List Char) :
    parseJsonObject (c :: rest)
      = if c = '\x7b' then
          match rest with
          | [] => none
          | c2 :: rest2 =>
            if c2 = '\x7d' then some ([], rest2)
            else parsePairsAux rest.length rest
        else none := rfl

theorem parseJsonObject_encodeHeader (f : SakDbField) :
    parseJsonObject (encodeHeader f)
      = some ([("t", JsonVal.num f.ts), ("k", JsonVal.str f.key),
          ("c", JsonVal.str f.crc)], []) := by
  have hb : encodeHeader f = '\x7b'
      :: (encodeJsonString "t" ++ ':' :: (intToDecimal f.ts
        ++ ',' :: (encodeJsonString "k" ++ ':' :: (encodeJsonString f.key
        ++ ',' :: (encodeJsonString "c" ++ ':' :: (encodeJsonString f.crc
        ++ ['\x7d'])))))) := rfl
  have hT : encodeJsonString "t" ++ ':' :: (intToDecimal f.ts
        ++ ',' :: (encodeJsonString "k" ++ ':' :: (encodeJsonString f.key
        ++ ',' :: (encodeJsonString "c" ++ ':' :: (encodeJsonString f.crc
        ++ ['\x7d'])))))
      = '\"' :: ('t' :: '\"' :: ':' :: (intToDecimal f.ts
        ++ ',' :: (encodeJsonString "k" ++ ':' :: (encodeJsonString f.key
        ++ ',' :: (encodeJsonString "c" ++ ':' :: (encodeJsonString f.crc
        ++ ['\x7d'])))))) := rfl
  rw [hb, parseJsonObject_cons, if_pos rfl, hT]
  dsimp only
  rw [if_neg (by decide)]
  have hval1 : parseJsonValue (intToDecimal f.ts
        ++ ',' :: (encodeJsonString "k" ++ ':' :: (encodeJsonString f.key
        ++ ',' :: (encodeJsonString "c" ++ ':' :: (encodeJsonString f.crc
        ++ ['\x7d'])))))
      = some (JsonVal.num f.ts, ',' :: (encodeJsonString "k"
          ++ ':' :: (encodeJsonString f.key
            ++ ',' :: (encodeJsonString "c" ++ ':' :: (encodeJsonString f.crc
              ++ ['\x7d']))))) :=
    parseJsonValue_int f.ts _ rfl
  have hval2 : parseJsonValue (encodeJsonString f.key
        ++ ',' :: (encodeJsonString "c" ++ ':' :: (encodeJsonString f.crc
          ++ ['\x7d'])))
      = some (JsonVal.str f.key, ',' :: (encodeJsonString "c"
          ++ ':' :: (encodeJsonString f.crc ++ ['\x7d']))) :=
    parseJsonValue_str f.key _
  have hval3 : parseJsonValue (encodeJsonString f.crc ++ ['\x7d'])
      = some (JsonVal.str f.crc, ['\x7d']) :=
    parseJsonValue_str f.crc _
  have hstep3 : parsePairsAux 1 (encodeJsonString "c"
        ++ ':' :: (encodeJsonString f.crc ++ ['\x7d']))
      = some ([("c", JsonVal.str f.crc)], []) :=
    parsePairsAux_last 0 "c" (JsonVal.str f.crc) _ hval3
  have hstep2 : parsePairsAux 2 (encodeJsonString "k"
        ++ ':' :: (encodeJsonString f.key
          ++ ',' :: (encodeJsonString "c" ++ ':' :: (encodeJsonString f.crc
            ++ ['\x7d']))))
      = some ([("k", JsonVal.str f.key), ("c", JsonVal.str f.crc)], []) := by
    rw [parsePairsAux_cons_comma 1 "k" (JsonVal.str f.key) _ _ hval2, hstep3]
    rfl
  have hstep1 : parsePairsAux 3 (encodeJsonString "t"
        ++ ':' :: (intToDecimal f.ts
          ++ ',' :: (encodeJsonString "k" ++ ':' :: (encodeJsonString f.key
            ++ ',' :: (encodeJsonString "c" ++ ':' :: (encodeJsonString f.crc
              ++ ['\x7d']))))))
      = some ([("t", JsonVal.num f.ts), ("k", JsonVal.str f.key),
          ("c", JsonVal.str f.crc)], []) := by
    rw [parsePairsAux_cons_comma 2 "t" (JsonVal.num f.ts) _ _ hval1, hstep2]
    rfl
  rw [hT] at hstep1
  apply parsePairsAux_mono _ hstep1
  simp only [List.length_cons]
  omega

/-! Line and file level round-trip (for C2). -/

theorem splitOnce_append (sep : Char) (h p : List Char) (hsep : sep ∉ h) :
    splitOnce sep (h ++ sep :: p) = some (h, p) := by
  induction h with
  | nil =>
    simp only [List.nil_append]
    unfold splitOnce
    rw [if_pos rfl]
  | cons c h2 ih =>
    simp only [List.mem_cons] at hsep
    push_neg at hsep
    simp only [List.cons_append]
    unfold splitOnce
    rw [if_neg (fun hc => hsep.1 hc.symm)]
    rw [ih hsep.2]
    rfl

theorem decodeLine_encode (f : SakDbField)
    (hsep : PAYLOAD_SEPARATOR ∉ encodeHeader f) :
    decodeLine (encodeHeader f ++ PAYLOAD_SEPARATOR :: encodeJsonString f.payload)
      = Except.ok f := by
  unfold decodeLine
  rw [splitOnce_append PAYLOAD_SEPARATOR _ _ hsep]
  dsimp only
  rw [parseJsonObject_encodeHeader f]
  dsimp only
  rw [if_neg (by simp)]
  have ht : jsonLookup [("t", JsonVal.num f.ts), ("k", JsonVal.str f.key),
      ("c", JsonVal.str f.crc)] "t" = some (JsonVal.num f.ts) := rfl
  have hk : jsonLookup [("t", JsonVal.num f.ts), ("k", JsonVal.str f.key),
      ("c", JsonVal.str f.crc)] "k" = some (JsonVal.str f.key) := rfl
  have hc : jsonLookup [("t", JsonVal.num f.ts), ("k", JsonVal.str f.key),
      ("c", JsonVal.str f.crc)] "c" = some (JsonVal.str f.crc) := rfl
  rw [ht, hk, hc]
  dsimp only
  have hp := parseJsonValue_str f.payload []
  rw [List.append_nil] at hp
  rw [hp]
  dsimp only
  rw [if_pos rfl]

theorem printable_cons {a : Char} {l : List Char}
    (ha : 32 ≤ a.toNat ∧ a.toNat ≤ 126)
    (hl : ∀ c ∈ l, 32 ≤ c.toNat ∧ c.toNat ≤ 126) :
    ∀ c ∈ a :: l, 32 ≤ c.toNat ∧ c.toNat ≤ 126 := by
  intro c hc
  rcases List.mem_cons.mp hc with h | h
  · subst h; exact ha
  · exact hl c h

theorem printable_append {l1 l2 : List Char}
    (h1 : ∀ c ∈ l1, 32 ≤ c.toNat ∧ c.toNat ≤ 126)
    (h2 : ∀ c ∈ l2, 32 ≤ c.toNat ∧ c.toNat ≤ 126) :
    ∀ c ∈ l1 ++ l2, 32 ≤ c.toNat ∧ c.toNat ≤ 126 := by
  intro c hc
  rcases List.mem_append.mp hc with h | h
  · exact h1 c h
  · exact h2 c h

theorem printable_nil : ∀ c ∈ ([] : List Char), 32 ≤ c.toNat ∧ c.toNat ≤ 126 := by
  intro c hc
  cases hc

theorem hexDigit_printable {m : Nat} (hm : m < 16) :
    32 ≤ (hexDigit m).toNat ∧ (hexDigit m).toNat ≤ 126 := by
  unfold hexDigit
  by_cases h10 : m < 10
  · rw [if_pos h10, char_toNat_ofNat (Or.inl (by omega))]
    omega
  · rw [if_neg h10, char_toNat_ofNat (Or.inl (by omega))]
    omega

theorem toHex4_printable (n : Nat) :
    ∀ c ∈ toHex4 n, 32 ≤ c.toNat ∧ c.toNat ≤ 126 := by
  unfold toHex4
  apply printable_cons (hexDigit_printable (by omega))
  apply printable_cons (hexDigit_printable (by omega))
  apply printable_cons (hexDigit_printable (by omega))
  apply printable_cons (hexDigit_printable (by omega))
  exact printable_nil

theorem escapeChar_printable (c : Char) :
    ∀ d ∈ escapeChar c, 32 ≤ d.toNat ∧ d.toNat ≤ 126 := by
  unfold escapeChar
  split_ifs with h1 h2 h3 h4 h5 h6 h7 h8 h9
  · exact printable_cons (by decide) (printable_cons (by decide) printable_nil)
  · exact printable_cons (by decide) (printable_cons (by decide) printable_nil)
  · exact printable_cons (by decide) (printable_cons (by decide) printable_nil)
  · exact printable_cons (by decide) (printable_cons (by decide) printable_nil)
  · exact printable_cons (by decide) (printable_cons (by decide) printable_nil)
  · exact printable_cons (by decide) (printable_cons (by decide) printable_nil)
  · exact printable_cons (by decide) (printable_cons (by decide) printable_nil)
  · exact printable_cons (by decide)
      (printable_cons (by decide) (toHex4_printable _))
  · apply printable_append
    · exact printable_cons (by decide)
        (printable_cons (by decide) (toHex4_printable _))
    · exact printable_cons (by decide)
        (printable_cons (by decide) (toHex4_printable _))
  · apply printable_cons _ printable_nil
    push_neg at h8
    omega

theorem encodeJsonString_printable (s : String) :
    ∀ d ∈ encodeJsonString s, 32 ≤ d.toNat ∧ d.toNat ≤ 126 := by
  unfold encodeJsonString
  apply printable_cons (by decide)
  apply printable_append
  · intro d hd
    rw [List.mem_flatten] at hd
    obtain ⟨l, hl, hdl⟩ := hd
    rw [List.mem_map] at hl
    obtain ⟨c, _, hc⟩ := hl
    subst hc
    exact escapeChar_printable c d hdl
  · exact printable_cons (by decide) printable_nil

theorem natToDecimal_printable (n : Nat) :
    ∀ d ∈ natToDecimal n, 32 ≤ d.toNat ∧ d.toNat ≤ 126 := by
  intro d hd
  have := natToDigitsAux_digits (show n < n + 1 by omega) d hd
  unfold isDigitChar at this
  simp at this
  omega

theorem intToDecimal_printable (i : Int) :
    ∀ d ∈ intToDecimal i, 32 ≤ d.toNat ∧ d.toNat ≤ 126 := by
  unfold intToDecimal
  by_cases hneg : i < 0
  · rw [if_pos hneg]
    exact printable_cons (by decide) (natToDecimal_printable _)
  · rw [if_neg hneg]
    exact natToDecimal_printable _

theorem encodeHeader_printable (f : SakDbField) :
    ∀ d ∈ encodeHeader f, 32 ≤ d.toNat ∧ d.toNat ≤ 126 := by
  unfold encodeHeader
  apply printable_cons (by decide)
  apply printable_cons (by decide)
  apply printable_cons (by decide)
  apply printable_cons (by decide)
  apply printable_cons (by decide)
  apply printable_append (intToDecimal_printable f.ts)
  apply printable_cons (by decide)
  apply printable_cons (by decide)
  apply printable_cons (by decide)
  apply printable_cons (by decide)
  apply printable_cons (by decide)
  apply printable_append (encodeJsonString_printable f.key)
  apply printable_cons (by decide)
  apply printable_cons (by decide)
  apply printable_cons (by decide)
  apply printable_cons (by decide)
  apply printable_cons (by decide)
  apply printable_append (encodeJsonString_printable f.crc)
  exact printable_cons (by decide) printable_nil

theorem encodeLine_printable (f : SakDbField) :
    ∀ d ∈ encodeHeader f ++ PAYLOAD_SEPARATOR :: encodeJsonString f.payload,
      32 ≤ d.toNat ∧ d.toNat ≤ 126 := by
  apply printable_append (encodeHeader_printable f)
  exact printable_cons (by decide) (encodeJsonString_printable f.payload)

theorem pyStrip_eq_self {xs : List Char}
    (h1 : ∀ c, xs.head? = some c → isPySpace c = false)
    (h2 : ∀ c, xs.getLast? = some c → isPySpace c = false) :
    pyStrip xs = xs := by
  cases xs with
  | nil => rfl
  | cons a ys =>
    unfold pyStrip
    rw [List.dropWhile_cons, if_neg (by simp [h1 a rfl])]
    cases hrev : (a :: ys).reverse with
    | nil =>
      exact absurd hrev (by simp)
    | cons b zs =>
      have hb : isPySpace b = false := by
        apply h2
        rw [← List.head?_reverse, hrev]
        rfl
      rw [List.dropWhile_cons, if_neg (by simp [hb]), ← hrev,
        List.reverse_reverse]

theorem splitOnChar_cons (sep c : Char) (rest : List Char) :
    splitOnChar sep (c :: rest)
      = if c = sep then [] :: splitOnChar sep rest
        else
          match splitOnChar sep rest with
          | [] => [[c]]
          | l :: ls => (c :: l) :: ls := rfl

theorem splitOnChar_line {sep : Char} {l : List Char} (h : sep ∉ l)
    (rest : List Char) :
    splitOnChar sep (l ++ sep :: rest) = l :: splitOnChar sep rest := by
  induction l with
  | nil =>
    simp only [List.nil_append]
    rw [splitOnChar_cons, if_pos rfl]
  | cons c l2 ih =>
    simp only [List.mem_cons] at h
    push_neg at h
    simp only [List.cons_append]
    rw [splitOnChar_cons, if_neg (fun hc => h.1 hc.symm), ih h.2]

theorem splitOnChar_joinNl (lines : List (List Char))
    (hnl : ∀ l ∈ lines, ('\n' : Char) ∉ l) (hne : lines ≠ []) :
    splitOnChar '\n' (joinNl lines ++ ['\n']) = lines ++ [[]] := by
  induction lines with
  | nil => exact absurd rfl hne
  | cons L LS ih =>
    cases LS with
    | nil =>
      show splitOnChar '\n' (L ++ '\n' :: []) = [L, []]
      rw [splitOnChar_line (hnl L (List.mem_cons_self L []))]
      rfl
    | cons L2 LS2 =>
      have hj : joinNl (L :: L2 :: LS2) = L ++ '\n' :: joinNl (L2 :: LS2) := rfl
      rw [hj]
      simp only [List.append_assoc, List.cons_append]
      rw [splitOnChar_line (hnl L (List.mem_cons_self L (L2 :: LS2)))]
      rw [ih (fun l hl => hnl l (List.mem_cons_of_mem L hl)) (by simp)]
      rfl

theorem splitlines_joinNl (lines : List (List Char))
    (hnl : ∀ l ∈ lines, ('\n' : Char) ∉ l) (hne : lines ≠ []) :
    splitlines (joinNl lines ++ ['\n']) = lines := by
  unfold splitlines
  rw [splitOnChar_joinNl lines hnl hne]
  dsimp only
  rw [List.getLast?_concat]
  exact List.dropLast_concat

theorem sakdb_dumps_lines_ok (fields : List SakDbField)
    (hsep : ∀ f ∈ fields, PAYLOAD_SEPARATOR ∉ encodeHeader f) :
    sakdb_dumps_lines fields = Except.ok (fields.map
      (fun f => encodeHeader f ++ PAYLOAD_SEPARATOR :: encodeJsonString f.payload)) := by
  induction fields with
  | nil => rfl
  | cons f fs ih =>
    unfold sakdb_dumps_lines
    rw [if_neg (hsep f (List.mem_cons_self f fs))]
    rw [ih (fun g hg => hsep g (List.mem_cons_of_mem f hg))]
    rfl

theorem sakdb_loads_fields_encode (fields : List SakDbField)
    (hsep : ∀ f ∈ fields, PAYLOAD_SEPARATOR ∉ encodeHeader f) :
    sakdb_loads_fields (fields.map
        (fun f => encodeHeader f ++ PAYLOAD_SEPARATOR :: encodeJsonString f.payload))
      = Except.ok fields := by
  induction fields with
  | nil => rfl
  | cons f fs ih =>
    simp only [List.map_cons]
    unfold sakdb_loads_fields
    have hline : encodeHeader f ++ PAYLOAD_SEPARATOR :: encodeJsonString f.payload
        = '\x7b' :: ('\"' :: 't' :: '\"' :: ':' :: (intToDecimal f.ts
          ++ ',' :: '\"' :: 'k' :: '\"' :: ':' :: (encodeJsonString f.key
          ++ ',' :: '\"' :: 'c' :: '\"' :: ':' :: (encodeJsonString f.crc
          ++ ['\x7d'])))
          ++ PAYLOAD_SEPARATOR :: encodeJsonString f.payload) := rfl
    have hlast : (encodeHeader f
          ++ PAYLOAD_SEPARATOR :: encodeJsonString f.payload).getLast?
        = some '\"' := by
      have hshape : encodeHeader f ++ PAYLOAD_SEPARATOR :: encodeJsonString f.payload
          = (encodeHeader f ++ PAYLOAD_SEPARATOR :: '\"'
              :: (f.payload.data.map escapeChar).flatten) ++ ['\"'] := by
        unfold encodeJsonString
        simp [List.append_assoc]
      rw [hshape, List.getLast?_concat]
    have hstrip : pyStrip (encodeHeader f
          ++ PAYLOAD_SEPARATOR :: encodeJsonString f.payload)
        = encodeHeader f ++ PAYLOAD_SEPARATOR :: encodeJsonString f.payload := by
      apply pyStrip_eq_self
      · intro c hc
        rw [hline] at hc
        simp only [List.head?_cons] at hc
        cases hc
        rfl
      · intro c hc
        rw [hlast] at hc
        cases hc
        rfl
    rw [hstrip]
    rw [if_neg (by rw [hline]; simp)]
    rw [decodeLine_encode f (hsep f (List.mem_cons_self f fs))]
    rw [ih (fun g hg => hsep g (List.mem_cons_of_mem f hg))]

theorem dumps_then_loads (fr : SakDbFields)
    (hsep : ∀ f ∈ fr.fields, PAYLOAD_SEPARATOR ∉ encodeHeader f)
    (hne : fr.fields ≠ []) :
    ∃ s, sakdb_dumps fr = Except.ok s
      ∧ sakdb_loads s = Except.ok (some ⟨fr.fields⟩) := by
  refine ⟨String.mk (joinNl (fr.fields.map
    (fun f => encodeHeader f ++ PAYLOAD_SEPARATOR :: encodeJsonString f.payload))
      ++ ['\n']), ?_, ?_⟩
  · unfold sakdb_dumps
    rw [sakdb_dumps_lines_ok fr.fields hsep]
  · unfold sakdb_loads
    have hnl : ∀ l ∈ fr.fields.map
        (fun f => encodeHeader f ++ PAYLOAD_SEPARATOR :: encodeJsonString f.payload),
        ('\n' : Char) ∉ l := by
      intro l hl
      rw [List.mem_map] at hl
      obtain ⟨f, _, hf⟩ := hl
      subst hf
      intro hmem
      have := encodeLine_printable f '\n' hmem
      revert this
      decide
    have hmapne : fr.fields.map
        (fun f => encodeHeader f ++ PAYLOAD_SEPARATOR :: encodeJsonString f.payload)
        ≠ [] := by
      intro hc
      exact hne (List.map_eq_nil_iff.mp hc)
    rw [show (String.mk (joinNl (fr.fields.map
        (fun f => encodeHeader f ++ PAYLOAD_SEPARATOR :: encodeJsonString f.payload))
        ++ ['\n'])).data
      = joinNl (fr.fields.map
          (fun f => encodeHeader f ++ PAYLOAD_SEPARATOR :: encodeJsonString f.payload))
        ++ ['\n'] from rfl]
    rw [splitlines_joinNl _ hnl hmapne]
    rw [sakdb_loads_fields_encode fr.fields hsep]
    obtain ⟨f, fs, hcons⟩ := List.exists_cons_of_ne_nil hne
    rw [hcons]

/-! Claim theorems for encode/decode (C2). -/

/-- C2 counterexample: the empty field record encodes to a single newline,
which decodes to the absent value (None), not to a field record whose fields
equal the empty record's fields. -/
theorem sakdb_round_trip_cex :
    sakdb_dumps ⟨[]⟩ = Except.ok "\n" ∧ sakdb_loads "\n" = Except.ok none :=
  ⟨rfl, rfl⟩

/-- C2 amended: for every field record with at least one field whose
serialized headers contain no `&`, decoding the encoding returns a record
with exactly the original fields; the empty record instead decodes to the
absent value. -/
theorem sakdb_round_trip (fr : SakDbFields)
    (hsep : ∀ f ∈ fr.fields, PAYLOAD_SEPARATOR ∉ encodeHeader f)
    (hne : fr.fields ≠ []) :
    ∃ s, sakdb_dumps fr = Except.ok s
      ∧ sakdb_loads s = Except.ok (some ⟨fr.fields⟩) :=
  dumps_then_loads fr hsep hne

/-- C2 witness for the amended round-trip at a concrete one-field record. -/
theorem sakdb_round_trip_witness :
    ∃ s, sakdb_dumps ⟨[⟨5, "k", "c", "p"⟩]⟩ = Except.ok s
      ∧ sakdb_loads s = Except.ok (some ⟨[⟨5, "k", "c", "p"⟩]⟩) :=
  sakdb_round_trip ⟨[⟨5, "k", "c", "p"⟩]⟩ (by decide) (by decide)

/-! Lemmas about the storage model (C7 - C10). -/

theorem lookupStr_dictInsert {α : Type} (m : List (String × α)) (k j : String)
    (v : α) :
    lookupStr (dictInsert m k v) j = if k = j then some v else lookupStr m j := by
  induction m with
  | nil => simp [dictInsert, lookupStr]
  | cons hd tl ih =>
    obtain ⟨k0, v0⟩ := hd
    by_cases h0 : k0 = k
    · subst h0
      by_cases hj : k0 = j
      · subst hj
        simp [dictInsert, lookupStr]
      · simp [dictInsert, lookupStr, hj]
    · by_cases hj : k0 = j
      · subst hj
        have hkj : ¬ k = k0 := fun h => h0 h.symm
        simp [dictInsert, lookupStr, h0, hkj]
      · simp [dictInsert, lookupStr, h0, hj, ih]

theorem mem_keys_dictInsert {α : Type} {m : List (String × α)} {k j : String}
    {v : α} :
    j ∈ (dictInsert m k v).map Prod.fst ↔ j = k ∨ j ∈ m.map Prod.fst := by
  induction m with
  | nil => simp [dictInsert]
  | cons hd tl ih =>
    obtain ⟨k0, v0⟩ := hd
    by_cases h0 : k0 = k
    · subst h0
      have e1 : dictInsert ((k0, v0) :: tl) k0 v = (k0, v) :: tl := by
        unfold dictInsert
        rw [if_pos rfl]
      rw [e1]
      simp only [List.map_cons, List.mem_cons]
      tauto
    · have e1 : dictInsert ((k0, v0) :: tl) k v = (k0, v0) :: dictInsert tl k v := by
        conv_lhs => unfold dictInsert
        rw [if_neg h0]
      rw [e1]
      simp only [List.map_cons, List.mem_cons, ih]
      tauto

theorem foldE_inv {α : Type} {f : SakDbGraph → α → Except String SakDbGraph}
    {P : SakDbGraph → Prop} :
    ∀ (L : List α) {g g' : SakDbGraph}, foldE f g L = Except.ok g' → P g →
      (∀ a, a ∈ L → ∀ h h', f h a = Except.ok h' → P h → P h') → P g' := by
  intro L
  induction L with
  | nil =>
    intro g g' hf hP _
    unfold foldE at hf
    cases hf
    exact hP
  | cons a rest ih =>
    intro g g' hf hP hstep
    unfold foldE at hf
    cases hfa : f g a with
    | error e =>
      rw [hfa] at hf
      dsimp only at hf
      cases hf
    | ok g2 =>
      rw [hfa] at hf
      dsimp only at hf
      exact ih hf (hstep a (by simp) g g2 hfa hP)
        (fun a' ha' => hstep a' (by simp [ha']))

/-- C7: SakDbGraph.session with a non-empty current-session slot raises
"There is already a session for the current graph." and leaves the slot (and
the whole graph) unchanged; with an empty slot it creates the session
(its name and message those of the call, no staged changes), installs it as
the current session and returns it. -/
theorem graph_session_spec (g : SakDbGraph) (name msg : String) :
    (∀ s, g.current_session = some s →
      SakDbGraph.session g name msg
        = (Except.error "There is already a session for the current graph.", g))
    ∧ (g.current_session = none →
      SakDbGraph.session g name msg
        = (Except.ok ⟨name, msg, []⟩,
            { g with current_session := some ⟨name, msg, []⟩ })) := by
  constructor
  · intro s hs
    unfold SakDbGraph.session
    rw [hs]
  · intro hs
    unfold SakDbGraph.session
    rw [hs]

/-- C7 witness: a graph with an active session is refused unchanged; an idle
graph gets the new session installed and returned. -/
theorem graph_session_spec_witness :
    SakDbGraph.session ⟨[], some ⟨"a", "b", []⟩⟩ "n" "m"
      = (Except.error "There is already a session for the current graph.",
          (⟨[], some ⟨"a", "b", []⟩⟩ : SakDbGraph))
    ∧ SakDbGraph.session ⟨[], none⟩ "n" "m"
      = (Except.ok ⟨"n", "m", []⟩,
          { (⟨[], none⟩ : SakDbGraph) with current_session := some ⟨"n", "m", []⟩ }) :=
  ⟨(graph_session_spec ⟨[], some ⟨"a", "b", []⟩⟩ "n" "m").1 ⟨"a", "b", []⟩ rfl,
   (graph_session_spec ⟨[], none⟩ "n" "m").2 rfl⟩

theorem getByKeyList_self_of_nodup {l : List SakDbField} {pf : SakDbField}
    (hnd : (l.map SakDbField.key).Nodup) (hpf : pf ∈ l) :
    getByKeyList l pf.key = some pf := by
  induction l with
  | nil => cases hpf
  | cons f fs ih =>
    rw [List.map_cons, List.nodup_cons] at hnd
    rcases List.mem_cons.mp hpf with h | h
    · subst h
      unfold getByKeyList
      rw [if_pos rfl]
    · unfold getByKeyList
      by_cases hk : f.key = pf.key
    
      · refine absurd ?_ hnd.1
        rw [hk]
        exact List.mem_map_of_mem SakDbField.key h
      · rw [if_neg hk]
        exact ih hnd.2 h

theorem patchFirst_self {l : List SakDbField} {pf : SakDbField}
    (h : getByKeyList l pf.key = some pf) : patchFirst l pf = l := by
  induction l with
  | nil => rfl
  | cons f fs ih =>
    unfold getByKeyList at h
    unfold patchFirst
    by_cases hk : f.key = pf.key
    · rw [if_pos hk] at h
      rw [if_pos hk]
      cases h
      rw [if_pos rfl]
    · rw [if_neg hk] at h
      rw [if_neg hk]
      rw [ih h]

theorem sanitize_ts_self (x : SakDbFields)
    (hnd : (x.fields.map SakDbField.key).Nodup) :
    sanitize_ts x x = x := by
  unfold sanitize_ts
  have hfold : ∀ (prevs acc : List SakDbField),
      (∀ pf ∈ prevs, getByKeyList acc pf.key = some pf) →
      prevs.foldl patchFirst acc = acc := by
    intro prevs
    induction prevs with
    | nil =>
      intro acc _
      rfl
    | cons q rest ih =>
      intro acc h
      rw [List.foldl_cons, patchFirst_self (h q (by simp))]
      exact ih acc (fun pf hpf => h pf (by simp [hpf]))
  rw [hfold x.fields x.fields
    (fun pf hpf => getByKeyList_self_of_nodup hnd hpf)]

/-- C8: for a stored version whose three dot-separated components parse as
integers A.B.C, the git-namespace version gate fails with the version error
exactly when the stored major component A exceeds the software major (0,
from VERSION = "0.0.1"); the minor and patch components B and C never cause
rejection, and an accepted version leaves the graph untouched.  When no
version is stored, the internal session of the constructor
(graph.session(msg="Set version") around set_metadata("version", VERSION))
runs to completion on the sample backend for any nondeterministic field
defaults whose headers stay free of the payload separator, and the version
read back from the backend afterwards is the current VERSION. -/
theorem version_gate_spec (g : SakDbGraph) (nsName : String) (ts1 ts2 : Int)
    (crc1 crc2 : String) :
    (∀ (version : String) (a b c : List Char) (A B C : Int),
      splitOnChar '.' version.data = [a, b, c] →
      parsePyInt a = Except.ok A →
      parsePyInt b = Except.ok B →
      parsePyInt c = Except.ok C →
      (0 < A → namespaceGit_version_gate g nsName ts1 ts2 crc1 crc2 (some version)
          = Except.error
              ("Repo version (" ++ version ++ ") not supported, please update the system."))
      ∧ (A ≤ 0 → namespaceGit_version_gate g nsName ts1 ts2 crc1 crc2 (some version)
          = Except.ok g))
    ∧ (PAYLOAD_SEPARATOR ∉ encodeHeader ⟨ts1, "_type", crc1, "str"⟩ →
      PAYLOAD_SEPARATOR ∉ encodeHeader
        ⟨ts2, "version", crc2, String.mk (encodeJsonString VERSION)⟩ →
      ∃ g2, namespaceGit_version_gate sampleGraph "a" ts1 ts2 crc1 crc2 none
          = Except.ok g2
        ∧ get_metadata g2 "a" "version" = Except.ok VERSION) := by
  constructor
  · intro version a b c A B C hsplit hA hB hC
    have hvc : version_components version = Except.ok (A, B, C) := by
      unfold version_components
      rw [hsplit]
      dsimp only
      rw [hA, hB, hC]
    have hsw : version_components VERSION = Except.ok (0, 0, 1) := by rfl
    have hval : _validate_version version
        = Except.ok (if (0 : Int) < A then false else true) := by
      unfold _validate_version
      rw [hvc, hsw]
    constructor
    · intro hpos
      unfold namespaceGit_version_gate
      dsimp only
      rw [hval, if_pos hpos]
    · intro hle
      unfold namespaceGit_version_gate
      dsimp only
      rw [hval, if_neg (show ¬ (0 : Int) < A by omega)]
  · intro hsep1 hsep2
    have hsepAll : ∀ f ∈ (set_metadata_fields "version" VERSION
        ts1 ts2 crc1 crc2).fields,
        PAYLOAD_SEPARATOR ∉ encodeHeader f := by
      intro f hf
      rcases List.mem_cons.mp hf with h | h
      · subst h
        exact hsep1
      · rcases List.mem_cons.mp h with h2 | h2
        · subst h2
          exact hsep2
        · cases h2
    obtain ⟨S, hdump, hload⟩ := dumps_then_loads
      (set_metadata_fields "version" VERSION ts1 ts2 crc1 crc2)
      hsepAll (by simp [set_metadata_fields])
    have hsan : sanitize_ts
        (set_metadata_fields "version" VERSION ts1 ts2 crc1 crc2)
        (set_metadata_fields "version" VERSION ts1 ts2 crc1 crc2)
        = set_metadata_fields "version" VERSION ts1 ts2 crc1 crc2 :=
      sanitize_ts_self _ (by
        show (["_type", "version"] : List String).Nodup
        decide)
    have hread : read_sakdb (verGateStaged ts1 ts2 crc1 crc2) "a"
        (metadata_path "a" "version") none
        = Except.ok (some (set_metadata_fields "version" VERSION
            ts1 ts2 crc1 crc2)) := rfl
    have happly : session_apply_sakdb (verGateStaged ts1 ts2 crc1 crc2) "a"
        (metadata_path "a" "version")
        (set_metadata_fields "version" VERSION ts1 ts2 crc1 crc2)
        = Except.ok (verGateApplied ts1 ts2 crc1 crc2 S) := by
      unfold session_apply_sakdb
      rw [hread]
      dsimp only
      rw [hsan, hdump]
      rfl
    have hfold1 : foldE (fun g2 pv => session_apply_sakdb g2 "a" pv.1 pv.2)
        (verGateStaged ts1 ts2 crc1 crc2)
        [(metadata_path "a" "version",
          set_metadata_fields "version" VERSION ts1 ts2 crc1 crc2)]
        = Except.ok (verGateApplied ts1 ts2 crc1 crc2 S) := by
      show (match session_apply_sakdb (verGateStaged ts1 ts2 crc1 crc2) "a"
          (metadata_path "a" "version")
          (set_metadata_fields "version" VERSION ts1 ts2 crc1 crc2) with
        | Except.error e => Except.error e
        | Except.ok g2 =>
          foldE (fun g2 pv => session_apply_sakdb g2 "a" pv.1 pv.2) g2
            ([] : List (String × SakDbFields)))
        = Except.ok (verGateApplied ts1 ts2 crc1 crc2 S)
      rw [happly]
      rfl
    have hdumpNs : dump_to_namespace (verGateStaged ts1 ts2 crc1 crc2) "a"
        = Except.ok (verGateDumped S) := by
      show (match foldE (fun g2 pv => session_apply_sakdb g2 "a" pv.1 pv.2)
          (verGateStaged ts1 ts2 crc1 crc2)
          [(metadata_path "a" "version",
            set_metadata_fields "version" VERSION ts1 ts2 crc1 crc2)] with
        | Except.error e => Except.error e
        | Except.ok g2 =>
          (match g2.current_session with
           | none => Except.error "no current session"
           | some s2 =>
             Except.ok { g2 with current_session := some { s2 with
               session_changes := dictInsert s2.session_changes "a" [] } }))
        = Except.ok (verGateDumped S)
      rw [hfold1]
      rfl
    have hfold2 : foldE (fun g2 n => dump_to_namespace g2 n)
        (verGateStaged ts1 ts2 crc1 crc2) ["a"]
        = Except.ok (verGateDumped S) := by
      show (match dump_to_namespace (verGateStaged ts1 ts2 crc1 crc2) "a" with
        | Except.error e => Except.error e
        | Except.ok g2 => foldE (fun g2 n => dump_to_namespace g2 n) g2
            ([] : List String))
        = Except.ok (verGateDumped S)
      rw [hdumpNs]
      rfl
    have hexit : SakDbSession_exit_success (verGateStaged ts1 ts2 crc1 crc2)
        = Except.ok (verGateFinal S) := by
      show (match foldE (fun g2 n => dump_to_namespace g2 n)
          (verGateStaged ts1 ts2 crc1 crc2) ["a"] with
        | Except.error e => Except.error e
        | Except.ok g2 =>
          (match g2.current_session with
           | none => Except.error "no current session"
           | some s2 =>
             (match foldE
                 (fun g3 n => close_session_ns g3 n s2.name s2.default_msg)
                 g2 (s2.session_changes.map Prod.fst) with
              | Except.error e => Except.error e
              | Except.ok g3 => Except.ok { g3 with current_session := none })))
        = Except.ok (verGateFinal S)
      rw [hfold2]
      rfl
    have hfold0 : foldE (fun g2 w => write_sakdb g2 w.1 w.2.1 w.2.2)
        (⟨[("a", sampleNs), ("b", sampleNs)],
          some ⟨"sakdbsession", "Set version", []⟩⟩ : SakDbGraph)
        [("a", metadata_path "a" "version",
          set_metadata_fields "version" VERSION ts1 ts2 crc1 crc2)]
        = Except.ok (verGateStaged ts1 ts2 crc1 crc2) := rfl
    have hrun : runSession sampleGraph "sakdbsession" "Set version"
        [("a", metadata_path "a" "version",
          set_metadata_fields "version" VERSION ts1 ts2 crc1 crc2)]
        = Except.ok (verGateFinal S) := by
      show (match foldE (fun g2 w => write_sakdb g2 w.1 w.2.1 w.2.2)
          (⟨[("a", sampleNs), ("b", sampleNs)],
            some ⟨"sakdbsession", "Set version", []⟩⟩ : SakDbGraph)
          [("a", metadata_path "a" "version",
            set_metadata_fields "version" VERSION ts1 ts2 crc1 crc2)] with
        | Except.error e => Except.error e
        | Except.ok g2 => SakDbSession_exit_success g2)
        = Except.ok (verGateFinal S)
      rw [hfold0]
      exact hexit
    refine ⟨verGateFinal S, hrun, ?_⟩
    have hr : read_sakdb (verGateFinal S) "a" (metadata_path "a" "version") none
        = sakdb_loads S := rfl
    unfold get_metadata
    rw [hr, hload]
    rfl

/-- C8 witness: stored major 1 is rejected with the source's message, stored
version 0.9.8 (larger minor and patch) is accepted leaving the graph as it
was, and with no stored version the internal session writes VERSION, which
reads back from the backend. -/
theorem version_gate_spec_witness :
    (namespaceGit_version_gate sampleGraph "a" 5 7 "c1" "c2" (some "1.2.3")
      = Except.error "Repo version (1.2.3) not supported, please update the system.")
    ∧ (namespaceGit_version_gate sampleGraph "a" 5 7 "c1" "c2" (some "0.9.8")
      = Except.ok sampleGraph)
    ∧ ∃ g2, namespaceGit_version_gate sampleGraph "a" 5 7 "c1" "c2" none
        = Except.ok g2
      ∧ get_metadata g2 "a" "version" = Except.ok VERSION :=
  ⟨((version_gate_spec sampleGraph "a" 5 7 "c1" "c2").1 "1.2.3"
      ['1'] ['2'] ['3'] 1 2 3 rfl rfl rfl rfl).1 (by decide),
   ((version_gate_spec sampleGraph "a" 5 7 "c1" "c2").1 "0.9.8"
      ['0'] ['9'] ['8'] 0 9 8 rfl rfl rfl rfl).2 (by decide),
   (version_gate_spec sampleGraph "a" 5 7 "c1" "c2").2 (by decide) (by decide)⟩

theorem start_session_ok {ns : SakDbNamespaceGit} {tip : Nat} {cm : GitCommit}
    (nm : String)
    (hidx : ns.current_session_index = none)
    (hbr : ns.current_session_branch = none)
    (htip : lookupStr ns.repo.branches ns.namespace_branch = some tip)
    (hcm : ns.repo.commitAt tip = some cm) :
    ∃ sb, ns.start_session nm = Except.ok
      { ns with
        repo := { ns.repo with branches := dictInsert ns.repo.branches sb tip },
        current_session_branch := some sb,
        current_session_index := some cm.tree } := by
  refine ⟨if (lookupStr ns.repo.branches ("session/" ++ nm)).isSome then
      ("session/" ++ nm) ++ "." ++ String.mk (natToDecimal ns.repo.commits.length)
    else ("session/" ++ nm), ?_⟩
  unfold SakDbNamespaceGit.start_session
  rw [hidx]
  dsimp only
  rw [hbr]
  dsimp only
  rw [htip]
  dsimp only
  rw [hcm]

/-- C9: SakDbNamespace.write_sakdb with no active session raises "It is
necessary to be in a session scope to perform a write"; with an active
session the write only restages that session's changes (the graph's
namespaces, hence every backend, are untouched); the first write to a
namespace within a session additionally starts the backend session, which
creates the session branch at the namespace tip but makes no commit and
moves no namespace branch. -/
theorem write_sakdb_session_only (g : SakDbGraph) (nsName path : String)
    (value : SakDbFields) :
    (g.current_session = none →
      write_sakdb g nsName path value
        = Except.error "It is necessary to be in a session scope to perform a write")
    ∧ (∀ s cs, g.current_session = some s →
        lookupStr s.session_changes nsName = some cs →
        write_sakdb g nsName path value
          = Except.ok
              { g with
                current_session := some
                  { s with
                    session_changes := dictInsert s.session_changes nsName
                      (SakDbSessionChanges_write cs path value) } })
    ∧ (∀ s ns tip cm, g.current_session = some s →
        lookupStr s.session_changes nsName = none →
        lookupStr g.namespaces nsName = some ns →
        ns.current_session_index = none →
        ns.current_session_branch = none →
        lookupStr ns.repo.branches ns.namespace_branch = some tip →
        ns.repo.commitAt tip = some cm →
        ∃ ns2, (write_sakdb g nsName path value
            = Except.ok
                { namespaces := dictInsert g.namespaces nsName ns2,
                  current_session := some
                    { s with
                      session_changes := dictInsert s.session_changes nsName
                        (SakDbSessionChanges_write [] path value) } })
          ∧ ns2.repo.commits = ns.repo.commits
          ∧ lookupStr ns2.repo.branches ns.namespace_branch = some tip
          ∧ ns2.current_session_branch ≠ none) := by
  refine ⟨?_, ?_, ?_⟩
  · intro h
    unfold write_sakdb
    rw [h]
  · intro s cs hs hcs
    unfold write_sakdb
    rw [hs]
    dsimp only
    unfold write_to_session
    rw [hcs]
  · intro s ns tip cm hs hcs hns hidx hbr htip hcm
    obtain ⟨sb, hstart⟩ := start_session_ok s.name hidx hbr htip hcm
    refine ⟨{ ns with
        repo := { ns.repo with branches := dictInsert ns.repo.branches sb tip },
        current_session_branch := some sb,
        current_session_index := some cm.tree }, ?_, rfl, ?_, ?_⟩
    · unfold write_sakdb
      rw [hs]
      dsimp only
      unfold write_to_session
      rw [hcs]
      dsimp only
      rw [hns]
      dsimp only
      rw [hstart]
    · show lookupStr (dictInsert ns.repo.branches sb tip) ns.namespace_branch = some tip
      rw [lookupStr_dictInsert]
      by_cases hsb : sb = ns.namespace_branch
      · rw [if_pos hsb]
      · rw [if_neg hsb]
        exact htip
    · simp

/-- C9 witness: a write with no session errors; a write with a staged entry
only restages; a first write in a fresh session stages and starts the
backend session without committing or moving master. -/
theorem write_sakdb_session_only_witness :
    (write_sakdb sampleGraph "a" "p" sampleFr
      = Except.error "It is necessary to be in a session scope to perform a write")
    ∧ (write_sakdb sampleGraphStaged "a" "p" sampleFr
        = Except.ok
            { sampleGraphStaged with
              current_session := some
                { sampleStaged with
                  session_changes := dictInsert sampleStaged.session_changes "a"
                    (SakDbSessionChanges_write [("p", sampleFr)] "p" sampleFr) } })
    ∧ (∃ ns2, (write_sakdb sampleGraphFresh "a" "p" sampleFr
          = Except.ok
              { namespaces := dictInsert sampleGraphFresh.namespaces "a" ns2,
                current_session := some
                  { sampleSession0 with
                    session_changes := dictInsert sampleSession0.session_changes "a"
                      (SakDbSessionChanges_write [] "p" sampleFr) } })
        ∧ ns2.repo.commits = sampleNs.repo.commits
        ∧ lookupStr ns2.repo.branches sampleNs.namespace_branch = some 0
        ∧ ns2.current_session_branch ≠ none) :=
  ⟨(write_sakdb_session_only sampleGraph "a" "p" sampleFr).1 rfl,
   (write_sakdb_session_only sampleGraphStaged "a" "p" sampleFr).2.1
     sampleStaged [("p", sampleFr)] rfl rfl,
   (write_sakdb_session_only sampleGraphFresh "a" "p" sampleFr).2.2
     sampleSession0 sampleNs 0 ⟨[], [], "Initial commit"⟩ rfl rfl rfl rfl rfl rfl rfl⟩

theorem session_apply_shape {g g' : SakDbGraph} {n p : String} {v : SakDbFields}
    (h : session_apply_sakdb g n p v = Except.ok g') :
    (∀ m, m ≠ n → lookupStr g'.namespaces m = lookupStr g.namespaces m)
    ∧ g'.current_session = g.current_session := by
  unfold session_apply_sakdb at h
  dsimp only at h
  repeat' split at h
  all_goals cases h
  all_goals (
    refine ⟨?_, rfl⟩
    intro m hm
    show lookupStr (dictInsert g.namespaces n _) m = _
    rw [lookupStr_dictInsert, if_neg (fun hh => hm hh.symm)])

theorem dump_shape {g g' : SakDbGraph} {n : String}
    (h : dump_to_namespace g n = Except.ok g') :
    (∀ m, m ≠ n → lookupStr g'.namespaces m = lookupStr g.namespaces m)
    ∧ ∃ s s', g.current_session = some s ∧ g'.current_session = some s'
      ∧ ∀ j, j ∈ s'.session_changes.map Prod.fst →
          j ∈ s.session_changes.map Prod.fst ∨ j = n := by
  unfold dump_to_namespace at h
  cases hcs : g.current_session with
  | none =>
    rw [hcs] at h
    dsimp only at h
    cases h
  | some s0 =>
    rw [hcs] at h
    dsimp only at h
    cases hlook : lookupStr s0.session_changes n with
    | none =>
      rw [hlook] at h
      dsimp only at h
      cases h
      exact ⟨fun m hm => rfl, s0, s0, rfl, hcs, fun j hj => Or.inl hj⟩
    | some cs =>
      rw [hlook] at h
      dsimp only at h
      cases hfold : foldE (fun g2 pv => session_apply_sakdb g2 n pv.1 pv.2) g cs with
      | error e =>
        rw [hfold] at h
        dsimp only at h
        cases h
      | ok g2 =>
        rw [hfold] at h
        dsimp only at h
        have hP : (∀ m, m ≠ n → lookupStr g2.namespaces m = lookupStr g.namespaces m)
            ∧ g2.current_session = g.current_session := by
          refine foldE_inv (P := fun gx =>
              (∀ m, m ≠ n → lookupStr gx.namespaces m = lookupStr g.namespaces m)
              ∧ gx.current_session = g.current_session) cs hfold
            ⟨fun m hm => rfl, rfl⟩ ?_
          intro a ha h1 h2 hstep hPrev
          obtain ⟨hm1, hm2⟩ := session_apply_shape hstep
          exact ⟨fun m hm => (hm1 m hm).trans (hPrev.1 m hm), hm2.trans hPrev.2⟩
        rw [hP.2, hcs] at h
        dsimp only at h
        cases h
        refine ⟨fun m hm => hP.1 m hm, s0, _, rfl, rfl, ?_⟩
        intro j hj
        have hj2 : j ∈ (dictInsert s0.session_changes n []).map Prod.fst := hj
        rcases mem_keys_dictInsert.mp hj2 with h1 | h1
        · exact Or.inr h1
        · exact Or.inl h1

theorem close_shape {g g' : SakDbGraph} {n nm msg : String}
    (h : close_session_ns g n nm msg = Except.ok g') :
    (∀ m, m ≠ n → lookupStr g'.namespaces m = lookupStr g.namespaces m)
    ∧ ∃ s s', g.current_session = some s ∧ g'.current_session = some s'
      ∧ ∀ j, j ∈ s'.session_changes.map Prod.fst →
          j ∈ s.session_changes.map Prod.fst ∨ j = n := by
  unfold close_session_ns at h
  cases hns : lookupStr g.namespaces n with
  | none =>
    rw [hns] at h
    dsimp only at h
    cases h
  | some ns =>
    rw [hns] at h
    dsimp only at h
    cases hcl : ns.close_session nm msg with
    | error e =>
      rw [hcl] at h
      dsimp only at h
      cases h
    | ok ns2 =>
      rw [hcl] at h
      dsimp only at h
      cases hcs : g.current_session with
      | none =>
        rw [hcs] at h
        dsimp only at h
        cases h
      | some s0 =>
        rw [hcs] at h
        dsimp only at h
        cases h
        refine ⟨?_, s0, _, rfl, rfl, ?_⟩
        · intro m hm
          show lookupStr (dictInsert g.namespaces n ns2) m = _
          rw [lookupStr_dictInsert, if_neg (fun hh => hm hh.symm)]
        · intro j hj
          have hj2 : j ∈ (dictInsert s0.session_changes n []).map Prod.fst := hj
          rcases mem_keys_dictInsert.mp hj2 with h1 | h1
          · exact Or.inr h1
          · exact Or.inl h1

theorem write_shape {h h' : SakDbGraph} {n p : String} {v : SakDbFields}
    (hw : write_sakdb h n p v = Except.ok h') :
    (∀ m, m ≠ n → lookupStr h'.namespaces m = lookupStr h.namespaces m)
    ∧ ∃ s s', h.current_session = some s ∧ h'.current_session = some s'
      ∧ ∀ j, j ∈ s'.session_changes.map Prod.fst →
          j ∈ s.session_changes.map Prod.fst ∨ j = n := by
  unfold write_sakdb at hw
  cases hcs : h.current_session with
  | none =>
    rw [hcs] at hw
    dsimp only at hw
    cases hw
  | some s =>
    rw [hcs] at hw
    dsimp only at hw
    unfold write_to_session at hw
    cases hlook : lookupStr s.session_changes n with
    | some cs =>
      rw [hlook] at hw
      dsimp only at hw
      cases hw
      refine ⟨fun m hm => rfl, s, _, rfl, rfl, ?_⟩
      intro j hj
      have hj2 : j ∈ (dictInsert s.session_changes n
          (SakDbSessionChanges_write cs p v)).map Prod.fst := hj
      rcases mem_keys_dictInsert.mp hj2 with h1 | h1
      · exact Or.inr h1
      · exact Or.inl h1
    | none =>
      rw [hlook] at hw
      dsimp only at hw
      cases hns : lookupStr h.namespaces n with
      | none =>
        rw [hns] at hw
        dsimp only at hw
        cases hw
      | some ns =>
        rw [hns] at hw
        dsimp only at hw
        cases hst : ns.start_session s.name with
        | error e =>
          rw [hst] at hw
          dsimp only at hw
          cases hw
        | ok ns2 =>
          rw [hst] at hw
          dsimp only at hw
          cases hw
          refine ⟨?_, s, _, rfl, rfl, ?_⟩
          · intro m hm
            show lookupStr (dictInsert h.namespaces n ns2) m = _
            rw [lookupStr_dictInsert, if_neg (fun hh => hm hh.symm)]
          · intro j hj
            have hj2 : j ∈ (dictInsert s.session_changes n
                (SakDbSessionChanges_write [] p v)).map Prod.fst := hj
            rcases mem_keys_dictInsert.mp hj2 with h1 | h1
            · exact Or.inr h1
            · exact Or.inl h1

theorem shape_step {other n : String} {h h' : SakDbGraph}
    {V : Option SakDbNamespaceGit} (hne : n ≠ other)
    (hsh1 : ∀ m, m ≠ n → lookupStr h'.namespaces m = lookupStr h.namespaces m)
    (hsh2 : ∃ s s', h.current_session = some s ∧ h'.current_session = some s'
      ∧ ∀ j, j ∈ s'.session_changes.map Prod.fst →
          j ∈ s.session_changes.map Prod.fst ∨ j = n)
    (hP1 : lookupStr h.namespaces other = V)
    (hP2 : ∀ s, h.current_session = some s →
      other ∉ s.session_changes.map Prod.fst) :
    lookupStr h'.namespaces other = V
    ∧ ∀ s, h'.current_session = some s →
        other ∉ s.session_changes.map Prod.fst := by
  obtain ⟨s, s', hs, hs', hsub⟩ := hsh2
  refine ⟨(hsh1 other (fun he => hne he.symm)).trans hP1, ?_⟩
  intro s2 hs2 hmem
  rw [hs'] at hs2
  cases hs2
  rcases hsub _ hmem with h1 | h1
  · exact hP2 s hs h1
  · exact hne h1.symm

/-- C10: a whole session (enter, any writes, successful exit) leaves every
namespace it never wrote to entirely unchanged in the graph: its backend
state (repository, commits, branches, tips and session fields) is the same
value as before the session.  The backend session branch is created only by
the first write to a namespace (the start_session call inside
write_to_session, covered by the C9 theorem). -/
theorem session_frame (g : SakDbGraph) (name msg other : String)
    (writes : List (String × String × SakDbFields)) (gf : SakDbGraph)
    (hother : ∀ w ∈ writes, w.1 ≠ other)
    (hrun : runSession g name msg writes = Except.ok gf) :
    lookupStr gf.namespaces other = lookupStr g.namespaces other := by
  unfold runSession SakDbGraph.session at hrun
  cases hcs : g.current_session with
  | some s =>
    rw [hcs] at hrun
    dsimp only at hrun
    cases hrun
  | none =>
    rw [hcs] at hrun
    dsimp only at hrun
    split at hrun
    · cases hrun
    · rename_i gmid hw
      have hPmid : lookupStr gmid.namespaces other = lookupStr g.namespaces other
          ∧ ∀ s2, gmid.current_session = some s2 →
            other ∉ s2.session_changes.map Prod.fst := by
        refine foldE_inv (P := fun gx =>
            lookupStr gx.namespaces other = lookupStr g.namespaces other
            ∧ ∀ s2, gx.current_session = some s2 →
              other ∉ s2.session_changes.map Prod.fst) writes hw ⟨rfl, ?_⟩ ?_
        · intro s2 hs2
          cases hs2
          simp
        · intro a ha h1 h2 hstep hPrev
          obtain ⟨hm1, hm2⟩ := write_shape hstep
          exact shape_step (hother a ha) hm1 hm2 hPrev.1 hPrev.2
      unfold SakDbSession_exit_success at hrun
      split at hrun
      · cases hrun
      · rename_i s0 hs0
        split at hrun
        · cases hrun
        · rename_i g3 hd
          have hkeys0 : other ∉ s0.session_changes.map Prod.fst := hPmid.2 s0 hs0
          have hP3 : lookupStr g3.namespaces other = lookupStr g.namespaces other
              ∧ ∀ s2, g3.current_session = some s2 →
                other ∉ s2.session_changes.map Prod.fst := by
            refine foldE_inv (P := fun gx =>
                lookupStr gx.namespaces other = lookupStr g.namespaces other
                ∧ ∀ s2, gx.current_session = some s2 →
                  other ∉ s2.session_changes.map Prod.fst) _ hd
              ⟨hPmid.1, hPmid.2⟩ ?_
            intro a ha h1 h2 hstep hPrev
            have hane : a ≠ other := fun he => hkeys0 (he ▸ ha)
            obtain ⟨hm1, hm2⟩ := dump_shape hstep
            exact shape_step hane hm1 hm2 hPrev.1 hPrev.2
          split at hrun
          · cases hrun
          · rename_i s2 hs2
            split at hrun
            · cases hrun
            · rename_i g4 hc
              have hkeys2 : other ∉ s2.session_changes.map Prod.fst := hP3.2 s2 hs2
              have hP4 : lookupStr g4.namespaces other = lookupStr g.namespaces other
                  ∧ ∀ s3, g4.current_session = some s3 →
                    other ∉ s3.session_changes.map Prod.fst := by
                refine foldE_inv (P := fun gx =>
                    lookupStr gx.namespaces other = lookupStr g.namespaces other
                    ∧ ∀ s3, gx.current_session = some s3 →
                      other ∉ s3.session_changes.map Prod.fst) _ hc
                  ⟨hP3.1, hP3.2⟩ ?_
                intro a ha h1 h2 hstep hPrev
                have hane : a ≠ other := fun he => hkeys2 (he ▸ ha)
                obtain ⟨hm1, hm2⟩ := close_shape hstep
                exact shape_step hane hm1 hm2 hPrev.1 hPrev.2
              cases hrun
              exact hP4.1

/-- C10 witness: a concrete two-namespace graph runs a full session (start,
one write to "a", dump, commit, merge, close) successfully, and namespace
"b", never written, is exactly the same value afterwards. -/
theorem session_frame_witness :
    (∀ w ∈ sampleWrites, w.1 ≠ "b")
    ∧ runSession sampleGraph "s" "m" sampleWrites = Except.ok sampleRun
    ∧ lookupStr sampleRun.namespaces "b" = lookupStr sampleGraph.namespaces "b" :=
  ⟨by decide, by rfl,
   session_frame sampleGraph "s" "m" "b" sampleWrites sampleRun
     (by decide) (by rfl)⟩
